import Mathlib

/-!
The hadesmem patcher, `PatchRaw` and `PatchDetour`.

A shallow embedding of `include/memory/hadesmem/patcher.hpp`.  The foreign
address space is a total map from addresses to bytes, every call made on the
process (read, write, flush, allocate, free) is appended to a trace, and a
C++ exception is an `Except.error` returned together with the state the
throwing call left behind, so that what a patch holds after a failed call can
be inspected.
-/

namespace hadesmem

/-! ## Machine model -/

/-- Build selected by the preprocessor: `_M_IX86` or `_M_AMD64`. -/
inductive Arch
  | x86
  | amd64
deriving DecidableEq

/-- Width of a pointer (`DWORD_PTR`, `PVOID`) on the build. -/
def Arch.ptrBits : Arch → Nat
  | .x86 => 32
  | .amd64 => 64

/-- Exceptions raised inside the patcher.  The first four are raised by the
process helpers, the next three are the `ErrorString`s thrown by the patcher
itself, `NullProcess` stands for dereferencing a null `process_`, and
`NoTermination` stands for a loop that does not come to an end. -/
inductive Error
  | ReadFailed
  | WriteFailed
  | FlushFailed
  | AllocFailed
  | DisassemblyFailed
  | UnexpectedStubSize
  | NoTrampolineBlock
  | NullProcess
  | NoTermination
deriving DecidableEq

/-- One call issued on the process.  An allocation records the requested
address (none for "anywhere"), the size and the base obtained (none when the
request was refused). -/
inductive Event
  | read (addr n : Nat)
  | write (addr : Nat) (bytes : List Nat)
  | flush (addr n : Nat)
  | alloc (hint : Option Nat) (size : Nat) (result : Option Nat)
  | free (base size : Nat)
deriving DecidableEq

/-- The foreign process: its memory (bytes are naturals below 256) and the
calls issued on it so far, oldest first. -/
structure World where
  mem : Nat → Nat
  trace : List Event

/-- Append a call to the trace. -/
def World.log (w : World) (e : Event) : World :=
  { w with trace := w.trace ++ [e] }

/-- The `n` bytes starting at `addr`. -/
def readBytes (mem : Nat → Nat) (addr n : Nat) : List Nat :=
  (List.range n).map (fun i => mem (addr + i))

/-- Memory after storing `bs` at `addr`. -/
def writeBytes (mem : Nat → Nat) (addr : Nat) (bs : List Nat) : Nat → Nat :=
  fun a => if addr ≤ a ∧ a < addr + bs.length then bs.getD (a - addr) 0 else mem a

/-- Little-endian bytes of `v`, `k` of them. -/
def leBytes (k v : Nat) : List Nat :=
  (List.range k).map (fun i => v / 256 ^ i % 256)

/-- Value of a little-endian byte string. -/
def leValue : List Nat → Nat
  | [] => 0
  | b :: bs => b + 256 * leValue bs

/-! ## udis86 decoder interface -/

/-- Mnemonics of udis86 that the patcher tells apart, and a few others. -/
inductive ud_mnemonic
  | UD_Ijmp
  | UD_Icall
  | UD_Iret
  | UD_Iint3
  | UD_Inop
  | UD_Ipush
  | UD_Imov
  | UD_Isub
  | UD_Iinvalid
deriving DecidableEq

/-- Operand kinds of udis86. -/
inductive ud_type
  | UD_OP_REG
  | UD_OP_MEM
  | UD_OP_IMM
  | UD_OP_JIMM
deriving DecidableEq

/-- An operand as read by the patcher: `type`, `size` in bits, `lval.sdword`. -/
structure ud_operand where
  type : ud_type
  size : Nat
  sdword : Int
deriving DecidableEq

/-- What one `ud_disassemble` call reports: the length (`0` when nothing could
be decoded), the mnemonic and operand 0 (`ud_insn_opr(&ud_obj, 0)`). -/
structure Insn where
  len : Nat
  mnemonic : ud_mnemonic
  opr0 : Option ud_operand
deriving DecidableEq

/-- Everything the patcher takes from outside: the build, the answers of the
process to reads, writes, flushes and allocations (which may depend on all
that happened before), `GetSystemInfo`, and the udis86 decoder applied to
the bytes of the input buffer that have not been consumed yet. -/
structure Env where
  arch : Arch
  readOk : World → Nat → Nat → Bool
  writeOk : World → Nat → List Nat → Bool
  flushOk : World → Nat → Nat → Bool
  allocAny : World → Nat → Option Nat
  allocAt : World → Nat → Nat → Option Nat
  dwPageSize : Nat
  lpMinimumApplicationAddress : Nat
  lpMaximumApplicationAddress : Nat
  ud_disassemble : List Nat → Insn

/-! ## Calls with exceptions and state -/

/-- The process together with the patch object a member function runs on. -/
structure Ctx (P : Type) where
  w : World
  self : P

/-- A member function: from the state before the call to its result (a value
or the exception thrown) and the state after it. -/
def Exec (P α : Type) : Type := Ctx P → Except Error α × Ctx P

/-- Sequencing: an exception ends the computation and keeps the state. -/
def Exec.bind {P α β : Type} (x : Exec P α) (f : α → Exec P β) : Exec P β :=
  fun s =>
    match x s with
    | (.ok a, s1) => f a s1
    | (.error e, s1) => (.error e, s1)

deriving instance DecidableEq for Except

instance {P : Type} : Monad (Exec P) where
  pure a := fun s => (.ok a, s)
  bind := Exec.bind

/-- Throw an exception. -/
def raise {P α : Type} (e : Error) : Exec P α := fun s => (.error e, s)

/-- Read the patch object. -/
def getSelf {P : Type} : Exec P P := fun s => (.ok s.self, s)

/-- Update the patch object. -/
def modifySelf {P : Type} (f : P → P) : Exec P Unit :=
  fun s => (.ok (), { s with self := f s.self })

/-- Dereference `process_`. -/
def deref {P : Type} (process_ : Option Nat) : Exec P Unit :=
  match process_ with
  | some _ => pure ()
  | none => raise .NullProcess

/-- Run `x`; when it throws, run `cleanup` and rethrow (a local owner going
out of scope during unwinding). -/
def unwindWith {P α : Type} (x : Exec P α) (cleanup : Exec P Unit) : Exec P α :=
  fun s =>
    match x s with
    | (.ok a, s1) => (.ok a, s1)
    | (.error e, s1) => (.error e, (cleanup s1).2)

/-! ## Process helpers (read.hpp, write.hpp, flush.hpp, alloc.hpp) -/

/-- Modelled from the spec: `ReadVector<BYTE>(process, address, n)` of
read.hpp, `read_bytes(addr, n) → bytes`, which may fail with an I/O failure.
The call is logged; when the process accepts it the `n` bytes are returned. -/
def ReadVector {P : Type} (env : Env) (addr n : Nat) : Exec P (List Nat) :=
  fun s =>
    if env.readOk s.w addr n then
      (.ok (readBytes s.w.mem addr n), { s with w := s.w.log (.read addr n) })
    else
      (.error .ReadFailed, { s with w := s.w.log (.read addr n) })

/-- Modelled from the spec: `WriteVector` and the range `Write` of write.hpp,
`write_bytes(addr, bytes)`, which may fail with an I/O failure.  The call is
logged; when the process accepts it the bytes are stored, otherwise memory is
left as it was. -/
def WriteVector {P : Type} (env : Env) (addr : Nat) (bs : List Nat) : Exec P Unit :=
  fun s =>
    if env.writeOk s.w addr bs then
      (.ok (), { s with w := { mem := writeBytes s.w.mem addr bs,
                               trace := s.w.trace ++ [.write addr bs] } })
    else
      (.error .WriteFailed, { s with w := s.w.log (.write addr bs) })

/-- Modelled from the spec: `Write(process, address, value)` of write.hpp for a
pointer-sized value, stored in the byte order of the machine (little endian). -/
def WritePtr {P : Type} (env : Env) (addr value : Nat) : Exec P Unit :=
  WriteVector env addr (leBytes (env.arch.ptrBits / 8) value)

/-- Modelled from the spec: `FlushInstructionCache(process, address, n)` of
flush.hpp, `flush_icache(addr, n)`, which may fail with an I/O failure. -/
def FlushInstructionCache {P : Type} (env : Env) (addr n : Nat) : Exec P Unit :=
  fun s =>
    if env.flushOk s.w addr n then
      (.ok (), { s with w := s.w.log (.flush addr n) })
    else
      (.error .FlushFailed, { s with w := s.w.log (.flush addr n) })

/-- Modelled from the spec: the `Allocator` of alloc.hpp, an executable region
given by its base and length, owned by whoever holds it. -/
structure Allocator where
  base : Nat
  size : Nat
deriving DecidableEq

/-- Modelled from the spec: `Allocator(process, size)`, executable memory
anywhere; throws when the process refuses. -/
def Allocator.create {P : Type} (env : Env) (size : Nat) : Exec P Allocator :=
  fun s =>
    match env.allocAny s.w size with
    | some base => (.ok ⟨base, size⟩, { s with w := s.w.log (.alloc none size (some base)) })
    | none => (.error .AllocFailed, { s with w := s.w.log (.alloc none size none) })

/-- Modelled from the spec: `Allocator(process, address, size)`, executable
memory at a requested address; throws when the process refuses. -/
def Allocator.createAt {P : Type} (env : Env) (address size : Nat) : Exec P Allocator :=
  fun s =>
    match env.allocAt s.w address size with
    | some base =>
        (.ok ⟨base, size⟩, { s with w := s.w.log (.alloc (some address) size (some base)) })
    | none => (.error .AllocFailed, { s with w := s.w.log (.alloc (some address) size none) })

/-- Modelled from the spec: the destructor of `Allocator`, which releases the
region and cannot throw. -/
def Allocator.destroy {P : Type} (a : Allocator) : Exec P Unit :=
  fun s => (.ok (), { s with w := s.w.log (.free a.base a.size) })

/-- Destroy the owner held by a `std::unique_ptr<Allocator>`, if any. -/
def destroyOpt {P : Type} : Option Allocator → Exec P Unit
  | some a => a.destroy
  | none => pure ()

/-- Destroy the elements of a `std::vector<std::unique_ptr<Allocator>>`. -/
def destroyAll {P : Type} : List Allocator → Exec P Unit
  | [] => pure ()
  | a :: as => do
      a.destroy
      destroyAll as

/-! ## PatchRaw -/

/-- Data members of `PatchRaw`; a null `target_` is address 0. -/
structure PatchRaw where
  process_ : Option Nat
  applied_ : Bool
  target_ : Nat
  data_ : List Nat
  orig_ : List Nat
deriving DecidableEq

/-- Constructor `PatchRaw(process, target, data)`. -/
def PatchRaw.create (process target : Nat) (data : List Nat) : PatchRaw :=
  { process_ := some process, applied_ := false, target_ := target, data_ := data, orig_ := [] }

/-- Move constructor `PatchRaw(PatchRaw&& other)`: the new object and what is left of `other`. -/
def PatchRaw.moveCtor (other : PatchRaw) : PatchRaw × PatchRaw :=
  ({ process_ := other.process_, applied_ := other.applied_, target_ := other.target_,
     data_ := other.data_, orig_ := other.orig_ },
   { process_ := none, applied_ := false, target_ := 0, data_ := [], orig_ := [] })

/-- Member `PatchRaw::IsApplied`. -/
def PatchRaw.IsApplied (p : PatchRaw) : Bool := p.applied_

/-- Member `PatchRaw::Apply`. -/
def PatchRaw.Apply (env : Env) : Exec PatchRaw Unit := do
  let self ← getSelf
  if self.applied_ then
    pure ()
  else do
    deref self.process_
    let orig ← ReadVector env self.target_ self.data_.length
    modifySelf (fun p => { p with orig_ := orig })
    WriteVector env self.target_ self.data_
    FlushInstructionCache env self.target_ self.data_.length
    modifySelf (fun p => { p with applied_ := true })

/-- Member `PatchRaw::Remove`. -/
def PatchRaw.Remove (env : Env) : Exec PatchRaw Unit := do
  let self ← getSelf
  if !self.applied_ then
    pure ()
  else do
    deref self.process_
    WriteVector env self.target_ self.orig_
    FlushInstructionCache env self.target_ self.orig_.length
    modifySelf (fun p => { p with applied_ := false })

/-- Member `PatchRaw::RemoveUnchecked`: `Remove` with every exception caught and the
object forced into the empty shape. -/
def PatchRaw.RemoveUnchecked (env : Env) (s : Ctx PatchRaw) : Ctx PatchRaw :=
  match PatchRaw.Remove env s with
  | (.ok _, s1) => s1
  | (.error _, s1) =>
      { s1 with self := { process_ := none, applied_ := false, target_ := 0,
                          data_ := [], orig_ := [] } }

/-- Destructor `~PatchRaw`: the process after the object is gone. -/
def PatchRaw.dtor (env : Env) (s : Ctx PatchRaw) : World :=
  (PatchRaw.RemoveUnchecked env s).w

/-- Move assignment `PatchRaw::operator=(PatchRaw&& other)` run on `self` in process `w`: the
process, the assigned object and what is left of `other`. -/
def PatchRaw.moveAssign (env : Env) (w : World) (self other : PatchRaw) :
    World × PatchRaw × PatchRaw :=
  let s1 := PatchRaw.RemoveUnchecked env ⟨w, self⟩
  (s1.w,
   { process_ := other.process_, applied_ := other.applied_, target_ := other.target_,
     data_ := other.data_, orig_ := other.orig_ },
   { other with process_ := none, applied_ := false, target_ := 0, data_ := [], orig_ := [] })

/-! ## PatchDetour -/

/-- Data members of `PatchDetour`; null `target_` and `detour_` are address 0,
an empty `trampoline_` is `none`. -/
structure PatchDetour where
  process_ : Option Nat
  applied_ : Bool
  target_ : Nat
  detour_ : Nat
  trampoline_ : Option Allocator
  orig_ : List Nat
  trampolines_ : List Allocator
deriving DecidableEq

/-- Constructor `PatchDetour(process, target, detour)`. -/
def PatchDetour.create (process target detour : Nat) : PatchDetour :=
  { process_ := some process, applied_ := false, target_ := target, detour_ := detour,
    trampoline_ := none, orig_ := [], trampolines_ := [] }

/-- Move constructor `PatchDetour(PatchDetour&& other)`: the new object and what is left of
`other` (moved-from owners and vectors are empty). -/
def PatchDetour.moveCtor (other : PatchDetour) : PatchDetour × PatchDetour :=
  ({ process_ := other.process_, applied_ := other.applied_, target_ := other.target_,
     detour_ := other.detour_, trampoline_ := other.trampoline_, orig_ := other.orig_,
     trampolines_ := other.trampolines_ },
   { process_ := none, applied_ := false, target_ := 0, detour_ := 0,
     trampoline_ := none, orig_ := [], trampolines_ := [] })

/-- Member `PatchDetour::IsApplied`. -/
def PatchDetour.IsApplied (p : PatchDetour) : Bool := p.applied_

/-- Member `PatchDetour::GetJumpSize`. -/
def GetJumpSize : Arch → Nat
  | .amd64 => 6
  | .x86 => 5

/-- Member `PatchDetour::GetCallSize`. -/
def GetCallSize : Arch → Nat
  | .amd64 => 6
  | .x86 => 5

/-- One attempt of `AllocTrampolineNear`: `new Allocator(process, address,
page_size)` inside `try`, any exception swallowed. -/
def tryCreateAt {P : Type} (env : Env) (address : Int) (size : Nat) :
    Exec P (Option Allocator) :=
  fun s =>
    match Allocator.createAt env address.toNat size s with
    | (.ok a, s1) => (.ok (some a), s1)
    | (.error _, s1) => (.ok none, s1)

/-- The `for` loop of `AllocTrampolineNear`, from `index` on.  The first
argument bounds the number of passes; running out of it while the loop
condition still holds is reported as `NoTermination`. -/
def AllocTrampolineNear.search {P : Type} (env : Env) (base search_beg search_end : Int)
    (page_size : Nat) : Nat → Int → Exec P (Option Allocator)
  | 0, index =>
      if base + index < search_end ∨ base - index > search_beg then
        raise .NoTermination
      else
        pure none
  | fuel + 1, index =>
      if base + index < search_end ∨ base - index > search_beg then do
        let higher := base + index
        let up ← (if higher < search_end then tryCreateAt env higher page_size else pure none)
        match up with
        | some a => pure (some a)
        | none => do
            let lower := base - index
            let down ←
              (if lower > search_beg then tryCreateAt env lower page_size else pure none)
            match down with
            | some a => pure (some a)
            | none =>
                AllocTrampolineNear.search env base search_beg search_end page_size fuel
                  (index + page_size)
      else
        pure none

/-- Member `PatchDetour::AllocTrampolineNear` (64-bit build).  Addresses are below
2^63, so the casts to `LONG_PTR` keep their value.  The number of passes given
to the loop is the number of steps of `page_size` after which both bounds
have been passed. -/
def AllocTrampolineNear {P : Type} (env : Env) (address : Nat) : Exec P Allocator := do
  let page_size := env.dwPageSize
  let search_beg : Int :=
    max ((address : Int) - 0x7FFFFF00) (env.lpMinimumApplicationAddress : Int)
  let search_end : Int :=
    min ((address : Int) + 0x7FFFFF00) (env.lpMaximumApplicationAddress : Int)
  let passes := (max (search_end - address) (address - search_beg)).toNat / page_size + 1
  let trampoline ←
    AllocTrampolineNear.search env (address : Int) search_beg search_end page_size passes 0
  match trampoline with
  | some a => pure a
  | none => raise .NoTrampolineBlock

/-- Modelled from the spec: the AsmJit stub of the 32-bit build, `jit.jmp(target)`
or `jit.call(target)` relocated to `address`: opcode `E9` or `E8` and the
displacement `destination − (instruction_address + 5)` in 32 bits. -/
def asmRel32 (opcode address target : Nat) : List Nat :=
  opcode :: leBytes 4 ((((target : Int) - ((address : Int) + 5)) % 2 ^ 32).toNat)

/-- Modelled from the spec: the AsmJit stub of the 64-bit build,
`jit.jmp(qword_ptr(label, disp))` or `jit.call(...)` with the label bound at
the first byte of the stub: `FF 25 disp32` or `FF 15 disp32`, whose
displacement, counted from the end of the six bytes, points at the slot.  The
caller passes `disp = slot − address − 4`, so the field holds `disp − 2`. -/
def asmRipIndirect (modrm : Nat) (disp : Int) : List Nat :=
  [0xFF, modrm] ++ leBytes 4 (((disp - 2) % 2 ^ 32).toNat)

/-- Members `PatchDetour::WriteJump` (`call = false`) and `PatchDetour::WriteCall`
(`call = true`), which differ only in the instruction assembled and in
`GetJumpSize` against `GetCallSize`.  The local `trampoline` owner is
destroyed when the write of the slot throws. -/
def WriteBranch (env : Env) (call : Bool) (address target : Nat) : Exec PatchDetour Unit := do
  let stub ←
    (match env.arch with
    | .amd64 => do
        let trampoline ← AllocTrampolineNear env address
        let tramp_addr := trampoline.base
        unwindWith (WritePtr env tramp_addr target) trampoline.destroy
        modifySelf (fun p => { p with trampolines_ := p.trampolines_ ++ [trampoline] })
        let disp : Int := (tramp_addr : Int) - (address : Int) - 4
        pure (asmRipIndirect (if call then 0x15 else 0x25) disp)
    | .x86 => pure (asmRel32 (if call then 0xE8 else 0xE9) address target))
  let stub_size := stub.length
  if stub_size ≠ (if call then GetCallSize env.arch else GetJumpSize env.arch) then
    raise .UnexpectedStubSize
  else
    WriteVector env address stub

/-- Member `PatchDetour::WriteJump`. -/
def WriteJump (env : Env) (address target : Nat) : Exec PatchDetour Unit :=
  WriteBranch env false address target

/-- Member `PatchDetour::WriteCall`. -/
def WriteCall (env : Env) (address target : Nat) : Exec PatchDetour Unit :=
  WriteBranch env true address target

/-- Loop variables of `PatchDetour::Apply`. -/
structure Cursor where
  tramp_cur : Nat
  instr_size : Nat
deriving DecidableEq

/-- The test of `Apply` on a decoded instruction: `jmp` or `call` whose operand
0 exists, is `UD_OP_JIMM` and has the size of an `int32_t` in bits. -/
def Insn.relBranch (insn : Insn) : Option ud_operand :=
  match insn.opr0 with
  | some op =>
      if (insn.mnemonic = .UD_Ijmp ∨ insn.mnemonic = .UD_Icall) ∧
          op.type = .UD_OP_JIMM ∧ op.size = 32 then some op else none
  | none => none

/-- The `jump_target` of `Apply`: the address of the instruction plus its signed
displacement plus its length, in pointer arithmetic, which wraps at the width
of a pointer. -/
def branchTarget (arch : Arch) (insn_base : Nat) (insn_target : Int) (insn_len : Nat) : Nat :=
  (((insn_base : Int) + insn_target + (insn_len : Int)) % 2 ^ arch.ptrBits).toNat

/-- Body of the `do ... while` loop of `PatchDetour::Apply`: decode the next
instruction of `buffer` and put it, or the branch standing for it, at
`tramp_cur`.  `ud_insn_off` is the program counter set by `ud_set_pc`, that is
`target_`, plus the bytes consumed so far. -/
def PatchDetour.ApplyInsn (env : Env) (buffer : List Nat) (c : Cursor) :
    Exec PatchDetour Cursor := do
  let self ← getSelf
  let insn := env.ud_disassemble (buffer.drop c.instr_size)
  let len := insn.len
  if len = 0 then
    raise .DisassemblyFailed
  else do
    let tramp_cur ←
      (match insn.relBranch with
      | some op => do
          let insn_base := self.target_ + c.instr_size
          let insn_target := op.sdword
          let insn_len := insn.len
          let jump_target := branchTarget env.arch insn_base insn_target insn_len
          if insn.mnemonic = .UD_Ijmp then do
            WriteJump env c.tramp_cur jump_target
            pure (c.tramp_cur + GetJumpSize env.arch)
          else do
            WriteCall env c.tramp_cur jump_target
            pure (c.tramp_cur + GetCallSize env.arch)
      | none => do
          let raw := (buffer.drop c.instr_size).take len
          WriteVector env c.tramp_cur raw
          pure (c.tramp_cur + len))
    pure { tramp_cur := tramp_cur, instr_size := c.instr_size + len }

/-- The `do ... while (instr_size < GetJumpSize())` loop of `Apply`.  The first
argument bounds the number of passes. -/
def PatchDetour.ApplyLoop (env : Env) (buffer : List Nat) : Nat → Cursor → Exec PatchDetour Cursor
  | 0, _ => raise .NoTermination
  | fuel + 1, c => do
      let c1 ← PatchDetour.ApplyInsn env buffer c
      if c1.instr_size < GetJumpSize env.arch then
        PatchDetour.ApplyLoop env buffer fuel c1
      else
        pure c1

/-- Member `PatchDetour::Apply`.  Every pass of the loop consumes at least one byte,
so `GetJumpSize()` passes are enough. -/
def PatchDetour.Apply (env : Env) : Exec PatchDetour Unit := do
  let self ← getSelf
  if self.applied_ then
    pure ()
  else do
    deref self.process_
    let kMaxInstructionLen := 15
    let tramp_size := kMaxInstructionLen * 3
    let fresh ← Allocator.create env tramp_size
    destroyOpt self.trampoline_
    modifySelf (fun p => { p with trampoline_ := some fresh })
    let tramp_cur := fresh.base
    let buffer ← ReadVector env self.target_ tramp_size
    let c ← PatchDetour.ApplyLoop env buffer (GetJumpSize env.arch)
      { tramp_cur := tramp_cur, instr_size := 0 }
    let instr_size := c.instr_size
    WriteJump env c.tramp_cur (self.target_ + instr_size)
    FlushInstructionCache env fresh.base (instr_size + GetJumpSize env.arch)
    let orig ← ReadVector env self.target_ (GetJumpSize env.arch)
    modifySelf (fun p => { p with orig_ := orig })
    WriteJump env self.target_ self.detour_
    FlushInstructionCache env self.target_ orig.length
    modifySelf (fun p => { p with applied_ := true })

/-- Member `PatchDetour::Remove`. -/
def PatchDetour.Remove (env : Env) : Exec PatchDetour Unit := do
  let self ← getSelf
  if !self.applied_ then
    pure ()
  else do
    deref self.process_
    WriteVector env self.target_ self.orig_
    destroyOpt self.trampoline_
    modifySelf (fun p => { p with trampoline_ := none })
    destroyAll self.trampolines_
    modifySelf (fun p => { p with trampolines_ := [] })
    modifySelf (fun p => { p with applied_ := false })

/-- Member `PatchDetour::RemoveUnchecked`: `Remove` with every exception caught, the
object forced into the empty shape and its trampolines released. -/
def PatchDetour.RemoveUnchecked (env : Env) (s : Ctx PatchDetour) : Ctx PatchDetour :=
  match PatchDetour.Remove env s with
  | (.ok _, s1) => s1
  | (.error _, s1) =>
      let s2 := (destroyOpt s1.self.trampoline_ s1).2
      let s3 := (destroyAll s1.self.trampolines_ s2).2
      { s3 with self := { process_ := none, applied_ := false, target_ := 0, detour_ := 0,
                          trampoline_ := none, orig_ := [], trampolines_ := [] } }

/-- Destructor `~PatchDetour`: `RemoveUnchecked`, then the members are destroyed in the
reverse order of their declaration (`trampolines_`, then `trampoline_`).
The result is the process after the object is gone. -/
def PatchDetour.dtor (env : Env) (s : Ctx PatchDetour) : World :=
  let s1 := PatchDetour.RemoveUnchecked env s
  let s2 := (destroyAll s1.self.trampolines_ s1).2
  (destroyOpt s2.self.trampoline_ s2).2.w

/-- Move assignment `PatchDetour::operator=(PatchDetour&& other)` run on `self` in process `w`:
the process, the assigned object and what is left of `other`.  Assigning to
`trampoline_` and `trampolines_` destroys what they held. -/
def PatchDetour.moveAssign (env : Env) (w : World) (self other : PatchDetour) :
    World × PatchDetour × PatchDetour :=
  let s1 := PatchDetour.RemoveUnchecked env ⟨w, self⟩
  let s2 := (destroyOpt s1.self.trampoline_ s1).2
  let s3 := (destroyAll s1.self.trampolines_ s2).2
  (s3.w,
   { process_ := other.process_, applied_ := other.applied_, target_ := other.target_,
     detour_ := other.detour_, trampoline_ := other.trampoline_, orig_ := other.orig_,
     trampolines_ := other.trampolines_ },
   { process_ := none, applied_ := false, target_ := 0, detour_ := 0,
     trampoline_ := none, orig_ := [], trampolines_ := [] })

/-! ## The prologue in the words of the specification -/

/-- The sum of the lengths of the shortest run of leading instructions of
`code` that reaches `need` bytes, as the specification words it, counted from
`n` bytes already taken; the first argument bounds the number of
instructions looked at. -/
def shortestRun (decode : List Nat → Insn) (code : List Nat) (need : Nat) : Nat → Nat → Nat
  | 0, n => n
  | fuel + 1, n =>
      if need ≤ n then n
      else shortestRun decode code need fuel (n + (decode (code.drop n)).len)

/-- No instruction of that run is a `jmp` or `call` with a 32-bit relative
operand. -/
def noRelBranchIn (decode : List Nat → Insn) (code : List Nat) (need : Nat) : Nat → Nat → Bool
  | 0, _ => true
  | fuel + 1, n =>
      if need ≤ n then true
      else (decode (code.drop n)).relBranch.isNone &&
        noRelBranchIn decode code need fuel (n + (decode (code.drop n)).len)

/-- The bytes the passes of the loop write to the primary trampoline, as the
specification counts them: for each instruction of the shortest run of
leading instructions of `code` that reaches `GetJumpSize()` bytes, counted
from offset `n`, its length when it is copied, `GetJumpSize()` or
`GetCallSize()` when a jump or a call is synthesised for it.  The first
argument bounds the number of instructions.  The tail jump is not counted. -/
def trampolineBytes (arch : Arch) (decode : List Nat → Insn) (code : List Nat) : Nat → Nat → Nat
  | 0, _ => 0
  | fuel + 1, n =>
      (match (decode (code.drop n)).relBranch with
        | some _ =>
            if (decode (code.drop n)).mnemonic = .UD_Ijmp then GetJumpSize arch
            else GetCallSize arch
        | none => (decode (code.drop n)).len) +
      (if n + (decode (code.drop n)).len < GetJumpSize arch then
        trampolineBytes arch decode code fuel (n + (decode (code.drop n)).len)
      else 0)

/-! ## The near-target search in the words of the specification -/

/-- The two bases of one step of the search outward from `a`: the one above,
`a + index`, when it is below the end of the window, then the one below,
`a - index`, when it is above its beginning. -/
def nearPair (a search_beg search_end index : Int) : List Int :=
  (if a + index < search_end then [a + index] else []) ++
  (if a - index > search_beg then [a - index] else [])

/-- The bases in the order of the specification, outward from `a` in steps of
`p` starting `index` away, alternately above and below: `a + index`,
`a - index`, `a + index + p`, `a - index - p`, ..., for `passes` steps, each
kept only when strictly inside the window. -/
def nearOrder (a search_beg search_end : Int) (p : Nat) (index : Int) (passes : Nat) :
    List Int :=
  (List.range passes).flatMap
    (fun k => nearPair a search_beg search_end (index + (k : Int) * (p : Int)))

/-- First success wins: request the bases of the list in turn, `size` bytes
each, and return the first allocation granted, or none when every request is
refused. -/
def firstGranted {P : Type} (env : Env) (size : Nat) : List Int → Exec P (Option Allocator)
  | [] => pure none
  | base :: rest => do
      let r ← tryCreateAt env base size
      match r with
      | some a => pure (some a)
      | none => firstGranted env size rest

/-- The call logged for a request at `base` that the process refuses. -/
def requestRefused (size : Nat) (base : Int) : Event :=
  .alloc (some base.toNat) size none

/-- The call logged for a request at `base` that the process grants at `got`. -/
def requestGranted (size : Nat) (base : Int) (got : Nat) : Event :=
  .alloc (some base.toNat) size (some got)

/-- Beginning of the window searched around `a`: `2^31 - 256` bytes below it,
or the minimum application address when that is higher. -/
def nearBeg (env : Env) (a : Nat) : Int :=
  max ((a : Int) - 0x7FFFFF00) (env.lpMinimumApplicationAddress : Int)

/-- End of the window searched around `a`: `2^31 - 256` bytes above it, or the
maximum application address when that is lower. -/
def nearEnd (env : Env) (a : Nat) : Int :=
  min ((a : Int) + 0x7FFFFF00) (env.lpMaximumApplicationAddress : Int)

/-- The bases the near-target search around `a` may request, in order: steps of
one page outward from `a`, as many as it takes to leave the window on both
sides. -/
def nearCandidates (env : Env) (a : Nat) : List Int :=
  nearOrder (a : Int) (nearBeg env a) (nearEnd env a) env.dwPageSize 0
    ((max (nearEnd env a - a) (a - nearBeg env a)).toNat / env.dwPageSize + 1)

/-- The near-target allocation as the specification words it: the first
request granted among the candidates, an error when all are refused. -/
def nearTargetSpec {P : Type} (env : Env) (a : Nat) : Exec P Allocator := do
  let r ← firstGranted env env.dwPageSize (nearCandidates env a)
  match r with
  | some x => pure x
  | none => raise .NoTrampolineBlock

/-! ## Sample process and decoder for the scenarios -/

/-- A 32-bit little-endian value read as a signed displacement. -/
def signed32 (v : Nat) : Int :=
  if v < 2 ^ 31 then (v : Int) else (v : Int) - 2 ^ 32

/-- A decoder for the handful of one-opcode instructions used in the
scenarios, following the x86 encoding: `push ebp` (55), `mov ebp, esp`
(8B EC), `sub esp, imm8` (83 EC ib), `nop` (90), `ret` (C3), `int3` (CC),
`call rel32` (E8 id) and `jmp rel32` (E9 id).  Nothing is decoded from an
empty input, any other byte is a one-byte invalid instruction. -/
def sampleDecode : List Nat → Insn
  | [] => ⟨0, .UD_Iinvalid, none⟩
  | 0x55 :: _ => ⟨1, .UD_Ipush, some ⟨.UD_OP_REG, 32, 0⟩⟩
  | 0x8B :: 0xEC :: _ => ⟨2, .UD_Imov, some ⟨.UD_OP_REG, 32, 0⟩⟩
  | 0x83 :: 0xEC :: _ :: _ => ⟨3, .UD_Isub, some ⟨.UD_OP_REG, 32, 0⟩⟩
  | 0x90 :: _ => ⟨1, .UD_Inop, none⟩
  | 0xC3 :: _ => ⟨1, .UD_Iret, none⟩
  | 0xCC :: _ => ⟨1, .UD_Iint3, none⟩
  | 0xE8 :: a :: b :: c :: d :: _ =>
      ⟨5, .UD_Icall, some ⟨.UD_OP_JIMM, 32, signed32 (leValue [a, b, c, d])⟩⟩
  | 0xE9 :: a :: b :: c :: d :: _ =>
      ⟨5, .UD_Ijmp, some ⟨.UD_OP_JIMM, 32, signed32 (leValue [a, b, c, d])⟩⟩
  | _ :: _ => ⟨1, .UD_Iinvalid, none⟩

/-- Whether a page of the sample process is taken: the code page at
`[0x401000, 0x402000)` and every page handed out so far. -/
def samplePageTaken (w : World) (addr : Nat) : Bool :=
  (0x401000 ≤ addr && addr < 0x402000) ||
  w.trace.any (fun e =>
    match e with
    | .alloc _ _ (some b) => b / 0x1000 == addr / 0x1000
    | _ => false)

/-- A process that accepts every read, write and flush, hands out the page at
`0x500000` for an allocation anywhere, and grants an allocation at a
requested address, rounded down to its page, when that page is not taken. -/
def sampleEnv (arch : Arch) : Env :=
  { arch := arch
    readOk := fun _ _ _ => true
    writeOk := fun _ _ _ => true
    flushOk := fun _ _ _ => true
    allocAny := fun _ _ => some 0x500000
    allocAt := fun w addr _ =>
      if samplePageTaken w addr then none else some (addr / 0x1000 * 0x1000)
    dwPageSize := 0x1000
    lpMinimumApplicationAddress := 0x10000
    lpMaximumApplicationAddress := 0x7FFFFFFEFFFF
    ud_disassemble := sampleDecode }

/-- The sample process before anything was called on it: `code` at the target
`0x401000`, `int3` everywhere else. -/
def sampleWorld (code : List Nat) : World :=
  { mem := writeBytes (fun _ => 0xCC) 0x401000 code, trace := [] }

/-- A fresh detour of the function at `0x401000` to `0x601000` in the sample
process holding `code`. -/
def sampleDetour (code : List Nat) : Ctx PatchDetour :=
  { w := sampleWorld code, self := PatchDetour.create 1 0x401000 0x601000 }

/-- The sample process refusing every read. -/
def sampleEnvNoRead (arch : Arch) : Env :=
  { sampleEnv arch with readOk := fun _ _ _ => false }

/-- The sample process refusing every flush. -/
def sampleEnvNoFlush (arch : Arch) : Env :=
  { sampleEnv arch with flushOk := fun _ _ _ => false }

/-- The sample process with the application addresses narrowed to
`[0x400000, 0x410000]`. -/
def sampleEnvNarrow : Env :=
  { sampleEnv .amd64 with
    lpMinimumApplicationAddress := 0x400000
    lpMaximumApplicationAddress := 0x410000 }

/-- The calls releasing the regions of a list of owners, in order. -/
def frees (l : List Allocator) : List Event :=
  l.map (fun a => Event.free a.base a.size)

/-! ## Relations between states used in the proofs -/

/-- The patch object and the memory are the same in both states (the traces
may differ). -/
def Quiet {P : Type} (s s1 : Ctx P) : Prop :=
  s1.self = s.self ∧ s1.w.mem = s.w.mem

/-- From `s` to `s1` the patch object only gained the auxiliary trampolines
`l`, each `page` bytes long, and memory changed at most inside
`[base, base + lim)` and in the first eight bytes of the trampolines gained. -/
def Grows (page base lim : Nat) (s s1 : Ctx PatchDetour) : Prop :=
  ∃ l : List Allocator,
    s1.self = { s.self with trampolines_ := s.self.trampolines_ ++ l } ∧
    (∀ r ∈ l, r.size = page) ∧
    ∀ x, s1.w.mem x ≠ s.w.mem x →
      (base ≤ x ∧ x < base + lim) ∨ ∃ r ∈ l, r.base ≤ x ∧ x < r.base + 8

/-- What the patcher relies on from the decoder: no instruction is longer
than 15 bytes, and a `jmp` or `call` with a 32-bit relative operand takes an
opcode byte and four displacement bytes at least. -/
def DecoderSane (env : Env) : Prop :=
  ∀ bs, (env.ud_disassemble bs).len ≤ 15 ∧
    ((env.ud_disassemble bs).relBranch.isSome = true → 5 ≤ (env.ud_disassemble bs).len)

/-! ## Basic facts about calls, memory and byte strings -/

theorem Exec.pure_run {P α : Type} (a : α) (s : Ctx P) :
    (pure a : Exec P α) s = (.ok a, s) := rfl

theorem Exec.bind_run {P α β : Type} (x : Exec P α) (f : α → Exec P β) (s : Ctx P) :
    (x >>= f) s = Exec.bind x f s := rfl

theorem Exec.bind_ok {P α β : Type} {x : Exec P α} {f : α → Exec P β} {s s1 : Ctx P} {a : α}
    (h : x s = (.ok a, s1)) : Exec.bind x f s = f a s1 := by
  simp [Exec.bind, h]

theorem Exec.bind_error {P α β : Type} {x : Exec P α} {f : α → Exec P β} {s s1 : Ctx P}
    {e : Error} (h : x s = (.error e, s1)) : Exec.bind x f s = (.error e, s1) := by
  simp [Exec.bind, h]

/-- A sequence that returns normally went through its first call normally. -/
theorem Exec.bind_eq_ok {P α β : Type} {x : Exec P α} {f : α → Exec P β} {s s2 : Ctx P} {b : β}
    (h : Exec.bind x f s = (.ok b, s2)) :
    ∃ a s1, x s = (.ok a, s1) ∧ f a s1 = (.ok b, s2) := by
  unfold Exec.bind at h
  split at h
  · next a s1 hx => exact ⟨a, s1, hx, h⟩
  · next e s1 hx => simp at h

theorem readBytes_length (mem : Nat → Nat) (addr n : Nat) :
    (readBytes mem addr n).length = n := by
  simp [readBytes]

theorem writeBytes_outside (mem : Nat → Nat) (addr : Nat) (bs : List Nat) (a : Nat)
    (h : a < addr ∨ addr + bs.length ≤ a) : writeBytes mem addr bs a = mem a := by
  unfold writeBytes
  rw [if_neg]
  omega

theorem writeBytes_inside (mem : Nat → Nat) (addr : Nat) (bs : List Nat) (i : Nat)
    (h : i < bs.length) : writeBytes mem addr bs (addr + i) = bs.getD i 0 := by
  unfold writeBytes
  rw [if_pos (by omega)]
  simp

theorem readBytes_congr (m1 m2 : Nat → Nat) (addr n : Nat)
    (h : ∀ a, addr ≤ a → a < addr + n → m1 a = m2 a) :
    readBytes m1 addr n = readBytes m2 addr n := by
  unfold readBytes
  apply List.map_congr_left
  intro i hi
  rw [List.mem_range] at hi
  exact h _ (by omega) (by omega)

/-- Reading back what was just stored. -/
theorem readBytes_writeBytes (mem : Nat → Nat) (addr : Nat) (bs : List Nat) :
    readBytes (writeBytes mem addr bs) addr bs.length = bs := by
  apply List.ext_getElem
  · simp [readBytes]
  · intro i h1 h2
    simp only [readBytes, List.getElem_map, List.getElem_range]
    rw [writeBytes_inside mem addr bs i h2]
    simp [List.getD_eq_getElem?_getD, List.getElem?_eq_getElem h2]

/-- Storing back what was read restores the range. -/
theorem writeBytes_readBytes (m0 mem : Nat → Nat) (addr n : Nat) (a : Nat)
    (h1 : addr ≤ a) (h2 : a < addr + n) :
    writeBytes mem addr (readBytes m0 addr n) a = m0 a := by
  have hlen := readBytes_length m0 addr n
  have : a = addr + (a - addr) := by omega
  rw [this, writeBytes_inside _ _ _ _ (by omega)]
  simp only [readBytes]
  rw [List.getD_eq_getElem?_getD, List.getElem?_eq_getElem (by simp; omega)]
  simp

/-! ## C1: PatchRaw round trip -/

/-- C1. For every memory state, target and replacement bytes `d`, when the
process accepts the reads, writes and flushes over the `len(d)` bytes at the
target, `Apply` on a freshly constructed `PatchRaw` returns normally, the
target then reads `d` and `IsApplied` is true; the following `Remove` returns
normally, the target then reads what it held before `Apply`, `IsApplied` is
false, and no byte outside the range was changed by either call. -/
theorem PatchRaw_round_trip (env : Env) (w : World) (process target : Nat) (d : List Nat)
    (hread : ∀ w1, env.readOk w1 target d.length = true)
    (hwrite : ∀ w1 bs, bs.length = d.length → env.writeOk w1 target bs = true)
    (hflush : ∀ w1, env.flushOk w1 target d.length = true) :
    (PatchRaw.Apply env ⟨w, PatchRaw.create process target d⟩).1 = .ok () ∧
    readBytes (PatchRaw.Apply env ⟨w, PatchRaw.create process target d⟩).2.w.mem
      target d.length = d ∧
    (PatchRaw.Apply env ⟨w, PatchRaw.create process target d⟩).2.self.IsApplied = true ∧
    (PatchRaw.Remove env (PatchRaw.Apply env ⟨w, PatchRaw.create process target d⟩).2).1
      = .ok () ∧
    readBytes (PatchRaw.Remove env
      (PatchRaw.Apply env ⟨w, PatchRaw.create process target d⟩).2).2.w.mem target d.length
      = readBytes w.mem target d.length ∧
    (PatchRaw.Remove env
      (PatchRaw.Apply env ⟨w, PatchRaw.create process target d⟩).2).2.self.IsApplied = false ∧
    ∀ a, a < target ∨ target + d.length ≤ a →
      (PatchRaw.Apply env ⟨w, PatchRaw.create process target d⟩).2.w.mem a = w.mem a ∧
      (PatchRaw.Remove env
        (PatchRaw.Apply env ⟨w, PatchRaw.create process target d⟩).2).2.w.mem a = w.mem a := by
  have hA : PatchRaw.Apply env ⟨w, PatchRaw.create process target d⟩ =
      (.ok (), ⟨{ mem := writeBytes w.mem target d,
                  trace := w.trace ++ [.read target d.length, .write target d,
                    .flush target d.length] },
                { process_ := some process, applied_ := true, target_ := target, data_ := d,
                  orig_ := readBytes w.mem target d.length }⟩) := by
    simp [PatchRaw.Apply, PatchRaw.create, Exec.bind_run, Exec.bind, Exec.pure_run, getSelf,
      deref, ReadVector, WriteVector, FlushInstructionCache, modifySelf, World.log, hread,
      hwrite, hflush]
  rw [hA]
  have hR : PatchRaw.Remove env
      ⟨{ mem := writeBytes w.mem target d,
         trace := w.trace ++ [.read target d.length, .write target d, .flush target d.length] },
       { process_ := some process, applied_ := true, target_ := target, data_ := d,
         orig_ := readBytes w.mem target d.length }⟩ =
      (.ok (), ⟨{ mem := writeBytes (writeBytes w.mem target d) target
                    (readBytes w.mem target d.length),
                  trace := w.trace ++ [.read target d.length, .write target d,
                    .flush target d.length, .write target (readBytes w.mem target d.length),
                    .flush target d.length] },
                { process_ := some process, applied_ := false, target_ := target, data_ := d,
                  orig_ := readBytes w.mem target d.length }⟩) := by
    simp [PatchRaw.Remove, Exec.bind_run, Exec.bind, Exec.pure_run, getSelf,
      deref, WriteVector, FlushInstructionCache, modifySelf, World.log, hread,
      hwrite, hflush, readBytes_length]
  rw [hR]
  refine ⟨rfl, readBytes_writeBytes _ _ _, rfl, rfl, ?_, rfl, ?_⟩
  · apply readBytes_congr
    intro a h1 h2
    exact writeBytes_readBytes _ _ _ _ _ h1 h2
  · intro a ha
    have h1 := writeBytes_outside w.mem target d a ha
    refine ⟨h1, ?_⟩
    show writeBytes _ target (readBytes w.mem target d.length) a = w.mem a
    rw [writeBytes_outside _ _ _ _ (by rw [readBytes_length]; exact ha)]
    exact h1

/-- Scenario S1: the target holds `00 11 22 33 44`, the replacement is
`AA BB CC DD EE`; after `Apply` the target reads the replacement, after
`Remove` it reads the original bytes. -/
theorem PatchRaw_round_trip_witness :
    readBytes (PatchRaw.Apply (sampleEnv .x86)
      ⟨sampleWorld [0x00, 0x11, 0x22, 0x33, 0x44],
        PatchRaw.create 1 0x401000 [0xAA, 0xBB, 0xCC, 0xDD, 0xEE]⟩).2.w.mem 0x401000 5
      = [0xAA, 0xBB, 0xCC, 0xDD, 0xEE] ∧
    readBytes (PatchRaw.Remove (sampleEnv .x86) (PatchRaw.Apply (sampleEnv .x86)
      ⟨sampleWorld [0x00, 0x11, 0x22, 0x33, 0x44],
        PatchRaw.create 1 0x401000 [0xAA, 0xBB, 0xCC, 0xDD, 0xEE]⟩).2).2.w.mem 0x401000 5
      = [0x00, 0x11, 0x22, 0x33, 0x44] :=
  have h := PatchRaw_round_trip (sampleEnv .x86) (sampleWorld [0x00, 0x11, 0x22, 0x33, 0x44])
    1 0x401000 [0xAA, 0xBB, 0xCC, 0xDD, 0xEE] (fun _ => rfl) (fun _ _ _ => rfl) (fun _ => rfl)
  ⟨h.2.1, h.2.2.2.2.1.trans (by decide)⟩

/-! ## Calls that leave memory and the patch object alone -/

theorem Quiet_refl {P : Type} (s : Ctx P) : Quiet s s := ⟨rfl, rfl⟩

theorem Quiet_trans {P : Type} {s s1 s2 : Ctx P} (h1 : Quiet s s1) (h2 : Quiet s1 s2) :
    Quiet s s2 :=
  ⟨h2.1.trans h1.1, h2.2.trans h1.2⟩

theorem Exec.bind_quiet {P α β : Type} {x : Exec P α} {f : α → Exec P β}
    (hx : ∀ s, Quiet s (x s).2) (hf : ∀ a s, Quiet s (f a s).2) (s : Ctx P) :
    Quiet s (Exec.bind x f s).2 := by
  unfold Exec.bind
  have h1 := hx s
  split
  · next a s1 heq =>
      rw [heq] at h1
      exact Quiet_trans h1 (hf a s1)
  · next e s1 heq =>
      rw [heq] at h1
      exact h1

theorem ReadVector_quiet {P : Type} (env : Env) (addr n : Nat) (s : Ctx P) :
    Quiet s (ReadVector env addr n s).2 := by
  unfold ReadVector
  split <;> exact ⟨rfl, rfl⟩

theorem ReadVector_ok {P : Type} {env : Env} {addr n : Nat} {s s1 : Ctx P} {r : List Nat}
    (h : ReadVector env addr n s = (.ok r, s1)) : r = readBytes s.w.mem addr n := by
  unfold ReadVector at h
  split at h
  · simp only [Prod.mk.injEq, Except.ok.injEq] at h
    exact h.1.symm
  · simp at h

theorem FlushInstructionCache_quiet {P : Type} (env : Env) (addr n : Nat) (s : Ctx P) :
    Quiet s (FlushInstructionCache env addr n s).2 := by
  unfold FlushInstructionCache
  split <;> exact ⟨rfl, rfl⟩

theorem Allocator.create_quiet {P : Type} (env : Env) (n : Nat) (s : Ctx P) :
    Quiet s (Allocator.create env n s).2 := by
  unfold Allocator.create
  split <;> exact ⟨rfl, rfl⟩

theorem Allocator.create_ok {P : Type} {env : Env} {n : Nat} {s s1 : Ctx P} {a : Allocator}
    (h : Allocator.create env n s = (.ok a, s1)) : a.size = n := by
  unfold Allocator.create at h
  split at h
  · simp only [Prod.mk.injEq, Except.ok.injEq] at h
    rw [← h.1]
  · simp at h

theorem Allocator.createAt_quiet {P : Type} (env : Env) (addr n : Nat) (s : Ctx P) :
    Quiet s (Allocator.createAt env addr n s).2 := by
  unfold Allocator.createAt
  split <;> exact ⟨rfl, rfl⟩

theorem Allocator.createAt_ok {P : Type} {env : Env} {addr n : Nat} {s s1 : Ctx P}
    {a : Allocator} (h : Allocator.createAt env addr n s = (.ok a, s1)) : a.size = n := by
  unfold Allocator.createAt at h
  split at h
  · simp only [Prod.mk.injEq, Except.ok.injEq] at h
    rw [← h.1]
  · simp at h

theorem Allocator.destroy_quiet {P : Type} (a : Allocator) (s : Ctx P) :
    Quiet s ((a.destroy : Exec P Unit) s).2 := ⟨rfl, rfl⟩

theorem destroyOpt_quiet {P : Type} (o : Option Allocator) (s : Ctx P) :
    Quiet s ((destroyOpt o : Exec P Unit) s).2 := by
  cases o <;> exact ⟨rfl, rfl⟩

theorem destroyAll_quiet {P : Type} (l : List Allocator) (s : Ctx P) :
    Quiet s ((destroyAll l : Exec P Unit) s).2 := by
  induction l generalizing s with
  | nil => exact ⟨rfl, rfl⟩
  | cons a as ih =>
      unfold destroyAll
      rw [Exec.bind_run]
      exact Exec.bind_quiet (fun s => Allocator.destroy_quiet a s) (fun _ s => ih s) s

theorem tryCreateAt_quiet {P : Type} (env : Env) (addr : Int) (n : Nat) (s : Ctx P) :
    Quiet s (tryCreateAt env addr n s).2 := by
  unfold tryCreateAt
  have h := Allocator.createAt_quiet env addr.toNat n s
  split
  · next a s1 heq => rw [heq] at h; exact h
  · next e s1 heq => rw [heq] at h; exact h

theorem tryCreateAt_ok {P : Type} {env : Env} {addr : Int} {n : Nat} {s s1 : Ctx P}
    {a : Allocator} (h : tryCreateAt env addr n s = (.ok (some a), s1)) : a.size = n := by
  unfold tryCreateAt at h
  split at h
  · next a1 s2 heq =>
      simp only [Prod.mk.injEq, Except.ok.injEq, Option.some.injEq] at h
      rw [← h.1]
      exact Allocator.createAt_ok heq
  · simp at h

theorem AllocTrampolineNear.search_quiet {P : Type} (env : Env) (base sb se : Int) (page : Nat)
    (fuel : Nat) (index : Int) (s : Ctx P) :
    Quiet s (AllocTrampolineNear.search env base sb se page fuel index s).2 := by
  induction fuel generalizing index s with
  | zero =>
      unfold AllocTrampolineNear.search
      split <;> exact ⟨rfl, rfl⟩
  | succ n ih =>
      unfold AllocTrampolineNear.search
      split
      · rw [Exec.bind_run]
        apply Exec.bind_quiet
        · intro s
          split
          · exact tryCreateAt_quiet _ _ _ _
          · exact ⟨rfl, rfl⟩
        · intro up s
          cases up with
          | some a => exact ⟨rfl, rfl⟩
          | none =>
              show Quiet s (Exec.bind _ _ s).2
              apply Exec.bind_quiet
              · intro s
                split
                · exact tryCreateAt_quiet _ _ _ _
                · exact ⟨rfl, rfl⟩
              · intro down s
                cases down with
                | some a => exact ⟨rfl, rfl⟩
                | none => exact ih _ _
      · exact ⟨rfl, rfl⟩

theorem AllocTrampolineNear.search_ok {P : Type} {env : Env} {base sb se : Int} {page : Nat}
    {fuel : Nat} {index : Int} {s s1 : Ctx P} {a : Allocator}
    (h : AllocTrampolineNear.search env base sb se page fuel index s = (.ok (some a), s1)) :
    a.size = page := by
  induction fuel generalizing index s with
  | zero =>
      unfold AllocTrampolineNear.search at h
      split at h
      · simp [raise] at h
      · simp [Exec.pure_run] at h
  | succ n ih =>
      unfold AllocTrampolineNear.search at h
      split at h
      · rw [Exec.bind_run] at h
        obtain ⟨up, s2, h1, h2⟩ := Exec.bind_eq_ok h
        cases up with
        | some a1 =>
            simp only [Exec.pure_run, Prod.mk.injEq, Except.ok.injEq, Option.some.injEq] at h2
            rw [← h2.1]
            split at h1
            · exact tryCreateAt_ok h1
            · simp [Exec.pure_run] at h1
        | none =>
            replace h2 : Exec.bind _ _ s2 = _ := h2
            obtain ⟨down, s3, h3, h4⟩ := Exec.bind_eq_ok h2
            cases down with
            | some a1 =>
                simp only [Exec.pure_run, Prod.mk.injEq, Except.ok.injEq,
                  Option.some.injEq] at h4
                rw [← h4.1]
                split at h3
                · exact tryCreateAt_ok h3
                · simp [Exec.pure_run] at h3
            | none => exact ih h4
      · simp [Exec.pure_run] at h

theorem AllocTrampolineNear_quiet {P : Type} (env : Env) (address : Nat) (s : Ctx P) :
    Quiet s (AllocTrampolineNear env address s).2 := by
  unfold AllocTrampolineNear
  simp only [Exec.bind_run]
  apply Exec.bind_quiet
  · intro s
    exact AllocTrampolineNear.search_quiet _ _ _ _ _ _ _ _
  · intro r s
    cases r <;> exact ⟨rfl, rfl⟩

theorem AllocTrampolineNear_ok {P : Type} {env : Env} {address : Nat} {s s1 : Ctx P}
    {a : Allocator} (h : AllocTrampolineNear env address s = (.ok a, s1)) :
    a.size = env.dwPageSize := by
  unfold AllocTrampolineNear at h
  simp only [Exec.bind_run] at h
  obtain ⟨r, s2, h1, h2⟩ := Exec.bind_eq_ok h
  cases r with
  | some a1 =>
      simp only [Exec.pure_run, Prod.mk.injEq, Except.ok.injEq] at h2
      rw [← h2.1]
      exact AllocTrampolineNear.search_ok h1
  | none => simp [raise] at h2

theorem WriteVector_ok {P : Type} {env : Env} {addr : Nat} {bs : List Nat} {s s1 : Ctx P}
    (h : WriteVector env addr bs s = (.ok (), s1)) :
    s1.self = s.self ∧ s1.w.mem = writeBytes s.w.mem addr bs ∧
      s1.w.trace = s.w.trace ++ [.write addr bs] := by
  unfold WriteVector at h
  split at h
  · simp only [Prod.mk.injEq, true_and] at h
    rw [← h]
    exact ⟨rfl, rfl, rfl⟩
  · simp at h

theorem leBytes_length (k v : Nat) : (leBytes k v).length = k := by
  simp [leBytes]

theorem asmRel32_length (opcode address target : Nat) :
    (asmRel32 opcode address target).length = 5 := by
  simp [asmRel32, leBytes_length]

theorem asmRipIndirect_length (modrm : Nat) (disp : Int) :
    (asmRipIndirect modrm disp).length = 6 := by
  simp [asmRipIndirect, leBytes_length]

/-- What a branch written by `WriteJump` or `WriteCall` leaves behind when the
call returns normally: on the 32-bit build the five bytes of the relative
branch at `address`; on the 64-bit build one more auxiliary trampoline whose
first eight bytes hold `target`, and the six bytes of the indirect branch at
`address`. -/
theorem WriteBranch_ok {env : Env} {call : Bool} {address target : Nat}
    {s s1 : Ctx PatchDetour} (h : WriteBranch env call address target s = (.ok (), s1)) :
    (env.arch = .x86 ∧ s1.self = s.self ∧
      s1.w.mem = writeBytes s.w.mem address
        (asmRel32 (if call then 0xE8 else 0xE9) address target)) ∨
    (env.arch = .amd64 ∧ ∃ a : Allocator, a.size = env.dwPageSize ∧
      s1.self = { s.self with trampolines_ := s.self.trampolines_ ++ [a] } ∧
      s1.w.mem = writeBytes (writeBytes s.w.mem a.base (leBytes 8 target)) address
        (asmRipIndirect (if call then 0x15 else 0x25)
          ((a.base : Int) - (address : Int) - 4))) := by
  unfold WriteBranch at h
  simp only [Exec.bind_run] at h
  obtain ⟨stub, s2, h1, h2⟩ := Exec.bind_eq_ok h
  cases harch : env.arch with
  | x86 =>
      left
      rw [harch] at h1
      simp only [Exec.pure_run, Prod.mk.injEq, Except.ok.injEq] at h1
      obtain ⟨hstub, hs2⟩ := h1
      have hlen : stub.length = if call then GetCallSize env.arch else GetJumpSize env.arch := by
        rw [← hstub, asmRel32_length, harch]
        cases call <;> rfl
      have h3 : WriteVector env address stub s2 = (.ok (), s1) := by
        simpa [hlen] using h2
      obtain ⟨h4, h5, _⟩ := WriteVector_ok h3
      rw [hs2, hstub]
      exact ⟨rfl, h4, h5⟩
  | amd64 =>
      right
      rw [harch] at h1
      simp only [Exec.bind_run] at h1
      obtain ⟨a, s3, h3, h4⟩ := Exec.bind_eq_ok h1
      obtain ⟨u, s4, h5, h6⟩ := Exec.bind_eq_ok h4
      obtain ⟨u2, s5, h7, h8⟩ := Exec.bind_eq_ok h6
      have hq := AllocTrampolineNear_quiet env address s
      rw [h3] at hq
      have hsz := AllocTrampolineNear_ok h3
      have hw : WritePtr env a.base target s3 = (.ok (), s4) := by
        unfold unwindWith at h5
        split at h5
        · next a2 s6 heq =>
            simp only [Prod.mk.injEq, Except.ok.injEq] at h5
            rw [heq, ← h5.2]
        · simp at h5
      unfold WritePtr at hw
      rw [harch] at hw
      obtain ⟨hw1, hw2, _⟩ := WriteVector_ok hw
      simp only [modifySelf, Prod.mk.injEq, Except.ok.injEq, true_and] at h7
      simp only [Exec.pure_run, Prod.mk.injEq, Except.ok.injEq] at h8
      obtain ⟨hstub, hs2⟩ := h8
      have hlen : stub.length = if call then GetCallSize env.arch else GetJumpSize env.arch := by
        rw [← hstub, asmRipIndirect_length, harch]
        cases call <;> rfl
      have h9 : WriteVector env address stub s2 = (.ok (), s1) := by
        simpa [hlen] using h2
      obtain ⟨h10, h11, _⟩ := WriteVector_ok h9
      refine ⟨rfl, a, hsz, ?_, ?_⟩
      · rw [h10, ← hs2, ← h7]
        simp only
        rw [hw1, hq.1]
      · rw [h11, ← hs2, ← h7, hstub]
        simp only
        rw [hw2, hq.2]
        rfl

theorem Grows_refl (page base lim : Nat) (s : Ctx PatchDetour) : Grows page base lim s s :=
  ⟨[], by simp, by simp, by simp⟩

theorem Grows_of_quiet {page base lim : Nat} {s s1 : Ctx PatchDetour} (h : Quiet s s1) :
    Grows page base lim s s1 :=
  ⟨[], by simp [h.1], by simp, by simp [h.2]⟩

theorem Grows_trans {page base lim : Nat} {s s1 s2 : Ctx PatchDetour}
    (h1 : Grows page base lim s s1) (h2 : Grows page base lim s1 s2) :
    Grows page base lim s s2 := by
  obtain ⟨l1, e1, p1, m1⟩ := h1
  obtain ⟨l2, e2, p2, m2⟩ := h2
  refine ⟨l1 ++ l2, ?_, ?_, ?_⟩
  · rw [e2, e1]
    simp
  · intro r hr
    rcases List.mem_append.mp hr with h | h
    · exact p1 r h
    · exact p2 r h
  · intro x hx
    by_cases h : s1.w.mem x = s.w.mem x
    · rw [← h] at hx
      rcases m2 x hx with h3 | ⟨r, hr, h3⟩
      · exact Or.inl h3
      · exact Or.inr ⟨r, List.mem_append.mpr (Or.inr hr), h3⟩
    · rcases m1 x h with h3 | ⟨r, hr, h3⟩
      · exact Or.inl h3
      · exact Or.inr ⟨r, List.mem_append.mpr (Or.inl hr), h3⟩

theorem Grows_mono {page base lim lim1 : Nat} {s s1 : Ctx PatchDetour}
    (h : Grows page base lim s s1) (hl : lim ≤ lim1) : Grows page base lim1 s s1 := by
  obtain ⟨l, e, p, m⟩ := h
  refine ⟨l, e, p, ?_⟩
  intro x hx
  rcases m x hx with h3 | h3
  · exact Or.inl ⟨h3.1, by omega⟩
  · exact Or.inr h3

/-- A branch written inside `[base, base + lim)` only grows the patch. -/
theorem WriteBranch_grows {env : Env} {call : Bool} {address target base lim : Nat}
    {s s1 : Ctx PatchDetour} (h : WriteBranch env call address target s = (.ok (), s1))
    (hb : base ≤ address) (hl : address + 6 ≤ base + lim) :
    Grows env.dwPageSize base lim s s1 := by
  rcases WriteBranch_ok h with ⟨_, h1, h2⟩ | ⟨_, a, ha, h1, h2⟩
  · refine ⟨[], by simp [h1], by simp, ?_⟩
    intro x hx
    left
    rw [h2] at hx
    by_contra hc
    apply hx
    apply writeBytes_outside
    rw [asmRel32_length]
    omega
  · refine ⟨[a], h1, by simpa using ha, ?_⟩
    intro x hx
    rw [h2] at hx
    by_cases hin : base ≤ x ∧ x < base + lim
    · exact Or.inl hin
    · right
      refine ⟨a, by simp, ?_⟩
      by_contra hc
      apply hx
      rw [writeBytes_outside _ _ _ _ (by rw [asmRipIndirect_length]; omega)]
      apply writeBytes_outside
      rw [leBytes_length]
      omega

theorem getSelf_bind {P β : Type} (f : P → Exec P β) (s : Ctx P) :
    Exec.bind getSelf f s = f s.self s := rfl

theorem Exec.seq_ok {P α β : Type} {x : Exec P α} {f : α → Exec P β} {s s1 : Ctx P} {a : α}
    (h : x s = (.ok a, s1)) : (x >>= f) s = f a s1 :=
  Exec.bind_ok h

theorem Exec.seq_error {P α β : Type} {x : Exec P α} {f : α → Exec P β} {s s1 : Ctx P}
    {e : Error} (h : x s = (.error e, s1)) : (x >>= f) s = (.error e, s1) :=
  Exec.bind_error h

theorem getSelf_seq {P β : Type} (f : P → Exec P β) (s : Ctx P) :
    (getSelf >>= f) s = f s.self s := rfl

theorem modifySelf_bind {P β : Type} (g : P → P) (f : Unit → Exec P β) (s : Ctx P) :
    (modifySelf g >>= f) s = f () { s with self := g s.self } := rfl

/-- What one pass of the loop of `Apply` does when it returns normally: the
decoded length is not zero and is added to `instr_size`; a relative branch is
replaced by `WriteJump` or `WriteCall` to the wrapped sum of the address of
the instruction, its displacement and its length, and the cursor moves by
`GetJumpSize()` or `GetCallSize()`; any other instruction is written as it
stands in the buffer and the cursor moves by its length. -/
theorem PatchDetour.ApplyInsn_ok {env : Env} {buffer : List Nat} {c c1 : Cursor}
    {s s1 : Ctx PatchDetour} (h : PatchDetour.ApplyInsn env buffer c s = (.ok c1, s1)) :
    (env.ud_disassemble (buffer.drop c.instr_size)).len ≠ 0 ∧
    c1.instr_size = c.instr_size + (env.ud_disassemble (buffer.drop c.instr_size)).len ∧
    (∀ op, (env.ud_disassemble (buffer.drop c.instr_size)).relBranch = some op →
      WriteBranch env
        (decide ((env.ud_disassemble (buffer.drop c.instr_size)).mnemonic ≠ .UD_Ijmp))
        c.tramp_cur
        (branchTarget env.arch (s.self.target_ + c.instr_size) op.sdword
          (env.ud_disassemble (buffer.drop c.instr_size)).len) s = (.ok (), s1) ∧
      c1.tramp_cur = c.tramp_cur +
        (if (env.ud_disassemble (buffer.drop c.instr_size)).mnemonic = .UD_Ijmp
          then GetJumpSize env.arch else GetCallSize env.arch)) ∧
    ((env.ud_disassemble (buffer.drop c.instr_size)).relBranch = none →
      WriteVector env c.tramp_cur
        ((buffer.drop c.instr_size).take
          (env.ud_disassemble (buffer.drop c.instr_size)).len) s = (.ok (), s1) ∧
      c1.tramp_cur = c.tramp_cur + (env.ud_disassemble (buffer.drop c.instr_size)).len) := by
  unfold PatchDetour.ApplyInsn at h
  simp only [Exec.bind_run, getSelf_bind] at h
  generalize env.ud_disassemble (buffer.drop c.instr_size) = insn at h ⊢
  split at h
  · simp [raise] at h
  · next hlen =>
      obtain ⟨tc, s2, h1, h2⟩ := Exec.bind_eq_ok h
      simp only [Exec.pure_run, Prod.mk.injEq, Except.ok.injEq] at h2
      obtain ⟨hc1, hs2⟩ := h2
      subst hs2
      subst hc1
      refine ⟨hlen, rfl, ?_, ?_⟩
      · intro op hop
        rw [hop] at h1
        simp only at h1
        split at h1
        · next hj =>
            obtain ⟨u, s3, h3, h4⟩ := Exec.bind_eq_ok h1
            simp only [Exec.pure_run, Prod.mk.injEq, Except.ok.injEq] at h4
            obtain ⟨htc, hs3⟩ := h4
            subst hs3
            subst htc
            simp only [hj, ne_eq, not_true_eq_false, decide_False, if_true, and_true]
            exact h3
        · next hj =>
            obtain ⟨u, s3, h3, h4⟩ := Exec.bind_eq_ok h1
            simp only [Exec.pure_run, Prod.mk.injEq, Except.ok.injEq] at h4
            obtain ⟨htc, hs3⟩ := h4
            subst hs3
            subst htc
            simp only [hj, ne_eq, not_false_eq_true, decide_True, if_false, and_true]
            exact h3
      · intro hop
        rw [hop] at h1
        simp only at h1
        obtain ⟨u, s3, h3, h4⟩ := Exec.bind_eq_ok h1
        simp only [Exec.pure_run, Prod.mk.injEq, Except.ok.injEq] at h4
        obtain ⟨htc, hs3⟩ := h4
        subst hs3
        subst htc
        exact ⟨h3, rfl⟩

theorem GetJumpSize_le (arch : Arch) : 5 ≤ GetJumpSize arch ∧ GetJumpSize arch ≤ 6 := by
  cases arch <;> simp [GetJumpSize]

theorem GetCallSize_eq (arch : Arch) : GetCallSize arch = GetJumpSize arch := by
  cases arch <;> rfl

theorem WriteVector_grows {env : Env} {addr base lim : Nat} {bs : List Nat}
    {s s1 : Ctx PatchDetour} (h : WriteVector env addr bs s = (.ok (), s1))
    (hb : base ≤ addr) (hl : addr + bs.length ≤ base + lim) :
    Grows env.dwPageSize base lim s s1 := by
  obtain ⟨h1, h2, _⟩ := WriteVector_ok h
  refine ⟨[], by simp [h1], by simp, ?_⟩
  intro x hx
  left
  rw [h2] at hx
  by_contra hc
  apply hx
  apply writeBytes_outside
  omega

/-- One pass of the loop started with the cursor at most six bytes into the
trampoline: it consumes between 1 and 15 bytes, moves the cursor by at most
15 bytes and by at most six fifths of what it consumed, and stays inside the
first 21 bytes of the trampoline. -/
theorem PatchDetour.ApplyInsn_grows {env : Env} {buffer : List Nat} {c c1 : Cursor}
    {s s1 : Ctx PatchDetour} (base : Nat) (hsane : DecoderSane env)
    (h : PatchDetour.ApplyInsn env buffer c s = (.ok c1, s1))
    (hb : base ≤ c.tramp_cur) (hoff : c.tramp_cur ≤ base + 6) :
    Grows env.dwPageSize base 21 s s1 ∧
    c.instr_size < c1.instr_size ∧ c1.instr_size ≤ c.instr_size + 15 ∧
    c.tramp_cur ≤ c1.tramp_cur ∧ c1.tramp_cur ≤ c.tramp_cur + 15 ∧
    5 * (c1.tramp_cur - c.tramp_cur) ≤ 6 * (c1.instr_size - c.instr_size) := by
  obtain ⟨hlen, hsz, hbr, hcp⟩ := PatchDetour.ApplyInsn_ok h
  obtain ⟨hmax, hmin⟩ := hsane (buffer.drop c.instr_size)
  generalize env.ud_disassemble (buffer.drop c.instr_size) = insn at hlen hsz hbr hcp hmax hmin
  have hj := GetJumpSize_le env.arch
  have hc := GetCallSize_eq env.arch
  cases hrb : insn.relBranch with
  | some op =>
      obtain ⟨h1, h2⟩ := hbr op hrb
      have h5 : 5 ≤ insn.len := hmin (by rw [hrb]; rfl)
      have hg : Grows env.dwPageSize base 21 s s1 := WriteBranch_grows h1 hb (by omega)
      have h3 : c1.tramp_cur ≤ c.tramp_cur + 6 ∧ c.tramp_cur ≤ c1.tramp_cur := by
        rw [h2]
        split <;> omega
      refine ⟨hg, by omega, by omega, by omega, by omega, by omega⟩
  | none =>
      obtain ⟨h1, h2⟩ := hcp hrb
      have hl : ((buffer.drop c.instr_size).take insn.len).length ≤ insn.len := by
        rw [List.length_take]
        exact Nat.min_le_left _ _
      have hg : Grows env.dwPageSize base 21 s s1 := WriteVector_grows h1 hb (by omega)
      refine ⟨hg, by omega, by omega, by omega, by omega, by omega⟩

/-- The loop of `Apply`, started inside the window with the cursor at most six
fifths of the consumed bytes into the trampoline, returns with at least
`GetJumpSize()` and at most `GetJumpSize() + 14` bytes consumed and the cursor
at most 21 bytes into the trampoline. -/
theorem PatchDetour.ApplyLoop_grows {env : Env} {buffer : List Nat} (base : Nat)
    (hsane : DecoderSane env) (fuel : Nat) {c c1 : Cursor} {s s1 : Ctx PatchDetour}
    (h : PatchDetour.ApplyLoop env buffer fuel c s = (.ok c1, s1))
    (hb : base ≤ c.tramp_cur) (hinv : 5 * (c.tramp_cur - base) ≤ 6 * c.instr_size)
    (hlt : c.instr_size < GetJumpSize env.arch) :
    Grows env.dwPageSize base 21 s s1 ∧ base ≤ c1.tramp_cur ∧ c1.tramp_cur ≤ base + 21 ∧
    GetJumpSize env.arch ≤ c1.instr_size ∧ c1.instr_size ≤ GetJumpSize env.arch + 14 := by
  have hj := GetJumpSize_le env.arch
  induction fuel generalizing c s with
  | zero =>
      unfold PatchDetour.ApplyLoop at h
      simp [raise] at h
  | succ n ih =>
      unfold PatchDetour.ApplyLoop at h
      simp only [Exec.bind_run] at h
      obtain ⟨c2, s2, h1, h2⟩ := Exec.bind_eq_ok h
      obtain ⟨hg, k1, k2, k3, k4, k5⟩ :=
        PatchDetour.ApplyInsn_grows base hsane h1 hb (by omega)
      split at h2
      · next hcont =>
          obtain ⟨hg2, r1, r2, r3, r4⟩ := ih h2 (by omega) (by omega) hcont
          exact ⟨Grows_trans hg hg2, r1, r2, r3, r4⟩
      · next hstop =>
          simp only [Exec.pure_run, Prod.mk.injEq, Except.ok.injEq] at h2
          obtain ⟨e1, e2⟩ := h2
          subst e1
          subst e2
          exact ⟨hg, by omega, by omega, by omega, by omega⟩

theorem deref_ok {P : Type} {o : Option Nat} {s s1 : Ctx P}
    (h : (deref o : Exec P Unit) s = (.ok (), s1)) : s1 = s := by
  cases o with
  | some p =>
      simp only [deref, Exec.pure_run, Prod.mk.injEq, true_and] at h
      exact h.symm
  | none => simp [deref, raise] at h

/-- The steps a normal return of `Apply` on an unapplied patch went through:
the new primary trampoline of 45 bytes, the loop over the 45 bytes read at the
target, the tail jump at the cursor to the target plus the bytes consumed,
the capture of `GetJumpSize()` bytes at the target, the jump to the detour at
the target, and the applied flag. -/
theorem PatchDetour.Apply_ok {env : Env} {s s1 : Ctx PatchDetour}
    (h : PatchDetour.Apply env s = (.ok (), s1)) (hun : s.self.applied_ = false) :
    ∃ (fresh : Allocator) (c : Cursor) (s3 s4 s5 s8 s9 : Ctx PatchDetour),
      fresh.size = 45 ∧
      s3.self = { s.self with trampoline_ := some fresh } ∧ s3.w.mem = s.w.mem ∧
      PatchDetour.ApplyLoop env (readBytes s.w.mem s.self.target_ 45) (GetJumpSize env.arch)
        { tramp_cur := fresh.base, instr_size := 0 } s3 = (.ok c, s4) ∧
      WriteJump env c.tramp_cur (s.self.target_ + c.instr_size) s4 = (.ok (), s5) ∧
      s8.self = { s5.self with
        orig_ := readBytes s5.w.mem s.self.target_ (GetJumpSize env.arch) } ∧
      s8.w.mem = s5.w.mem ∧
      WriteJump env s.self.target_ s.self.detour_ s8 = (.ok (), s9) ∧
      s1.self = { s9.self with applied_ := true } ∧ s1.w.mem = s9.w.mem := by
  unfold PatchDetour.Apply at h
  simp only [Exec.bind_run, getSelf_bind, hun, Bool.false_eq_true, if_false] at h
  obtain ⟨u0, t0, h0, h⟩ := Exec.bind_eq_ok h
  rw [deref_ok h0] at h
  obtain ⟨fresh, t1, h1, h⟩ := Exec.bind_eq_ok h
  have q1 := Allocator.create_quiet env (15 * 3) s
  rw [h1] at q1
  have hsz : fresh.size = 45 := Allocator.create_ok h1
  obtain ⟨u2, t2, h2, h⟩ := Exec.bind_eq_ok h
  have q2 := destroyOpt_quiet s.self.trampoline_ t1
  rw [h2] at q2
  simp only [modifySelf_bind] at h
  obtain ⟨buffer, t3, h3, h⟩ := Exec.bind_eq_ok h
  have q3 := ReadVector_quiet env s.self.target_ (15 * 3)
    ({ t2 with self := { t2.self with trampoline_ := some fresh } } : Ctx PatchDetour)
  rw [h3] at q3
  have eb := ReadVector_ok h3
  obtain ⟨c, t4, h4, h⟩ := Exec.bind_eq_ok h
  obtain ⟨u5, t5, h5, h⟩ := Exec.bind_eq_ok h
  obtain ⟨u6, t6, h6, h⟩ := Exec.bind_eq_ok h
  have q6 := FlushInstructionCache_quiet env fresh.base (c.instr_size + GetJumpSize env.arch) t5
  rw [h6] at q6
  obtain ⟨orig, t7, h7, h⟩ := Exec.bind_eq_ok h
  have q7 := ReadVector_quiet env s.self.target_ (GetJumpSize env.arch) t6
  rw [h7] at q7
  have eo := ReadVector_ok h7
  simp only [modifySelf_bind] at h
  obtain ⟨u9, t9, h9, h⟩ := Exec.bind_eq_ok h
  obtain ⟨u10, t10, h10, h⟩ := Exec.bind_eq_ok h
  have q10 := FlushInstructionCache_quiet env s.self.target_ orig.length t9
  rw [h10] at q10
  simp only [modifySelf, Prod.mk.injEq, true_and] at h
  have em : t2.w.mem = s.w.mem := q2.2.trans q1.2
  have es : t2.self = s.self := q2.1.trans q1.1
  refine ⟨fresh, c, t3, t4, t5,
    { t7 with self := { t7.self with orig_ := orig } }, t9, hsz, ?_, ?_, ?_, h5, ?_, ?_, h9,
    ?_, ?_⟩
  · rw [q3.1]
    simp only [es]
  · rw [q3.2]
    exact em
  · rw [← h4, eb]
    simp only [em]
  · simp only
    rw [q7.1, q6.1, eo, q6.2]
  · simp only
    rw [q7.2, q6.2]
  · rw [← h]
    simp only
    rw [q10.1]
  · rw [← h]
    simp only
    rw [q10.2]

theorem destroyOpt_run {P : Type} (o : Option Allocator) (s : Ctx P) :
    (destroyOpt o : Exec P Unit) s =
      (.ok (), { s with w := { s.w with trace := s.w.trace ++ frees o.toList } }) := by
  cases o with
  | some a => simp [destroyOpt, Allocator.destroy, World.log, frees]
  | none => simp [destroyOpt, Exec.pure_run, frees]

theorem destroyAll_run {P : Type} (l : List Allocator) (s : Ctx P) :
    (destroyAll l : Exec P Unit) s =
      (.ok (), { s with w := { s.w with trace := s.w.trace ++ frees l } }) := by
  induction l generalizing s with
  | nil => simp [destroyAll, Exec.pure_run, frees]
  | cons a as ih =>
      unfold destroyAll
      have hd : (a.destroy : Exec P Unit) s =
          (.ok (), { s with w := s.w.log (.free a.base a.size) }) := rfl
      rw [Exec.seq_ok hd, ih]
      simp [World.log, frees]

/-- Member `Remove` on an applied patch whose write is accepted: the captured bytes
are stored at the target, every trampoline held is released, and the patch is
left unapplied and holding none.  The calls issued are the write and the
releases, in this order. -/
theorem PatchDetour.Remove_run_ok (env : Env) (s : Ctx PatchDetour) (pid : Nat)
    (ha : s.self.applied_ = true) (hp : s.self.process_ = some pid)
    (hw : env.writeOk s.w s.self.target_ s.self.orig_ = true) :
    PatchDetour.Remove env s =
      (.ok (),
        { w := { mem := writeBytes s.w.mem s.self.target_ s.self.orig_,
                 trace := s.w.trace ++ [.write s.self.target_ s.self.orig_] ++
                   frees s.self.trampoline_.toList ++ frees s.self.trampolines_ },
          self := { s.self with trampoline_ := none, trampolines_ := [], applied_ := false } }) := by
  unfold PatchDetour.Remove
  simp only [getSelf_seq, ha, Bool.not_true, Bool.false_eq_true, if_false, hp, deref]
  rw [Exec.seq_ok (Exec.pure_run _ _)]
  have h1 : WriteVector env s.self.target_ s.self.orig_ s =
      (.ok (), { s with w := { mem := writeBytes s.w.mem s.self.target_ s.self.orig_,
                               trace := s.w.trace ++ [.write s.self.target_ s.self.orig_] } }) := by
    simp [WriteVector, hw]
  rw [Exec.seq_ok h1, Exec.seq_ok (destroyOpt_run _ _)]
  simp only [modifySelf_bind]
  rw [Exec.seq_ok (destroyAll_run _ _)]
  simp only [modifySelf_bind]
  simp [modifySelf, hp]

/-- Member `Remove` on an applied patch whose write is refused throws after the write
was issued and leaves the patch object as it was. -/
theorem PatchDetour.Remove_run_error (env : Env) (s : Ctx PatchDetour) (pid : Nat)
    (ha : s.self.applied_ = true) (hp : s.self.process_ = some pid)
    (hw : env.writeOk s.w s.self.target_ s.self.orig_ = false) :
    PatchDetour.Remove env s =
      (.error .WriteFailed,
        { s with w := s.w.log (.write s.self.target_ s.self.orig_) }) := by
  unfold PatchDetour.Remove
  simp only [getSelf_seq, ha, Bool.not_true, Bool.false_eq_true, if_false, hp, deref]
  rw [Exec.seq_ok (Exec.pure_run _ _)]
  have h1 : WriteVector env s.self.target_ s.self.orig_ s =
      (.error .WriteFailed, { s with w := s.w.log (.write s.self.target_ s.self.orig_) }) := by
    simp [WriteVector, hw]
  rw [Exec.seq_error h1]

/-- A normal return of `Remove` on an applied patch is the run of
`Remove_run_ok`. -/
theorem PatchDetour.Remove_ok {env : Env} {s s1 : Ctx PatchDetour}
    (h : PatchDetour.Remove env s = (.ok (), s1)) (ha : s.self.applied_ = true) :
    s1 = { w := { mem := writeBytes s.w.mem s.self.target_ s.self.orig_,
                  trace := s.w.trace ++ [.write s.self.target_ s.self.orig_] ++
                    frees s.self.trampoline_.toList ++ frees s.self.trampolines_ },
           self := { s.self with trampoline_ := none, trampolines_ := [], applied_ := false } } := by
  cases hp : s.self.process_ with
  | none =>
      unfold PatchDetour.Remove at h
      simp only [getSelf_seq, ha, Bool.not_true, Bool.false_eq_true, if_false, hp, deref] at h
      have hr : (raise .NullProcess : Exec PatchDetour Unit) s = (.error .NullProcess, s) := rfl
      rw [Exec.seq_error hr] at h
      simp at h
  | some pid =>
      cases hw : env.writeOk s.w s.self.target_ s.self.orig_ with
      | true =>
          rw [PatchDetour.Remove_run_ok env s pid ha hp hw] at h
          simp only [Prod.mk.injEq, true_and] at h
          exact h.symm
      | false =>
          rw [PatchDetour.Remove_run_error env s pid ha hp hw] at h
          simp at h

theorem Exec.run_eq_ok {P : Type} {x : Exec P Unit} {s : Ctx P} (h : (x s).1 = .ok ()) :
    x s = (.ok (), (x s).2) := by
  rw [← h]

theorem Exec.run_eq_val {P α : Type} {x : Exec P α} {s : Ctx P} {a : α}
    (h : (x s).1 = .ok a) : x s = (.ok a, (x s).2) := by
  rw [← h]

theorem sampleDecode_sane (arch : Arch) : DecoderSane (sampleEnv arch) := by
  intro bs
  show (sampleDecode bs).len ≤ 15 ∧
    ((sampleDecode bs).relBranch.isSome = true → 5 ≤ (sampleDecode bs).len)
  unfold sampleDecode
  split <;> simp [Insn.relBranch]

/-! ## C2: PatchDetour round trip -/

/-- C2. For every process, decoder that respects the x86 instruction lengths
and unapplied patch: when `Apply` returns normally, every trampoline the patch
then holds (the primary one and the auxiliary ones, each of a page of at
least eight bytes) is disjoint from the `GetJumpSize()` bytes at the target,
and the following `Remove` returns normally, those bytes are again what they
were before `Apply`, `IsApplied` is false and the patch holds neither the
primary trampoline nor an auxiliary one. -/
theorem PatchDetour_round_trip (env : Env) (s0 s1 s2 : Ctx PatchDetour)
    (hsane : DecoderSane env) (hpage : 8 ≤ env.dwPageSize)
    (hun : s0.self.applied_ = false)
    (hA : PatchDetour.Apply env s0 = (.ok (), s1))
    (hdisj : ∀ r, (s1.self.trampoline_ = some r ∨ r ∈ s1.self.trampolines_) →
      r.base + r.size ≤ s0.self.target_ ∨
        s0.self.target_ + GetJumpSize env.arch ≤ r.base)
    (hR : PatchDetour.Remove env s1 = (.ok (), s2)) :
    readBytes s2.w.mem s0.self.target_ (GetJumpSize env.arch) =
      readBytes s0.w.mem s0.self.target_ (GetJumpSize env.arch) ∧
    s2.self.IsApplied = false ∧ s2.self.trampoline_ = none ∧ s2.self.trampolines_ = [] := by
  obtain ⟨fresh, c, s3, s4, s5, s8, s9, hsz, e3, m3, hloop, htail, e8, m8, hentry, e1, m1⟩ :=
    PatchDetour.Apply_ok hA hun
  have hj := GetJumpSize_le env.arch
  obtain ⟨g1, b1, b2, _, _⟩ :=
    PatchDetour.ApplyLoop_grows fresh.base hsane _ hloop (Nat.le_refl _)
      (by simp) (by simp only; omega)
  have g2 : Grows env.dwPageSize fresh.base 45 s4 s5 :=
    WriteBranch_grows htail b1 (by omega)
  obtain ⟨l, e5, pl, ml⟩ := Grows_trans (Grows_mono g1 (by omega : 21 ≤ 45)) g2
  -- the patch object after `Apply`
  have hself9 : ∃ l2 : List Allocator, s9.self = { s8.self with
      trampolines_ := s8.self.trampolines_ ++ l2 } := by
    rcases WriteBranch_ok hentry with ⟨_, h1, _⟩ | ⟨_, a, _, h1, _⟩
    · exact ⟨[], by simp [h1]⟩
    · exact ⟨[a], h1⟩
  obtain ⟨l2, e9⟩ := hself9
  have ha1 : s1.self.applied_ = true := by rw [e1]
  have ht1 : s1.self.target_ = s0.self.target_ := by rw [e1, e9, e8, e5, e3]
  have ho1 : s1.self.orig_ = readBytes s5.w.mem s0.self.target_ (GetJumpSize env.arch) := by
    rw [e1, e9, e8]
  have htr1 : s1.self.trampoline_ = some fresh := by rw [e1, e9, e8, e5, e3]
  have hts1 : s1.self.trampolines_ = s0.self.trampolines_ ++ l ++ l2 := by
    rw [e1, e9, e8, e5, e3]
  -- the bytes at the target were not touched before they were captured
  have hkeep : ∀ x, s0.self.target_ ≤ x → x < s0.self.target_ + GetJumpSize env.arch →
      s5.w.mem x = s0.w.mem x := by
    intro x hx1 hx2
    rw [← m3]
    by_contra hne
    rcases ml x hne with hin | ⟨r, hr, hin⟩
    · have := hdisj fresh (Or.inl htr1)
      omega
    · have hr1 : r ∈ s1.self.trampolines_ := by
        rw [hts1]
        exact List.mem_append.mpr (Or.inl (List.mem_append.mpr (Or.inr hr)))
      have := hdisj r (Or.inr hr1)
      have := pl r hr
      omega
  have e2 := PatchDetour.Remove_ok hR ha1
  subst e2
  refine ⟨?_, rfl, rfl, rfl⟩
  simp only [ht1, ho1]
  have hlen : (readBytes s5.w.mem s0.self.target_ (GetJumpSize env.arch)).length =
      GetJumpSize env.arch := readBytes_length _ _ _
  calc readBytes (writeBytes s1.w.mem s0.self.target_
          (readBytes s5.w.mem s0.self.target_ (GetJumpSize env.arch)))
          s0.self.target_ (GetJumpSize env.arch)
      = readBytes s5.w.mem s0.self.target_ (GetJumpSize env.arch) := by
        have key : ∀ bs : List Nat, bs.length = GetJumpSize env.arch →
            readBytes (writeBytes s1.w.mem s0.self.target_ bs) s0.self.target_
              (GetJumpSize env.arch) = bs := by
          intro bs hb
          rw [← hb]
          exact readBytes_writeBytes _ _ _
        exact key _ hlen
    _ = readBytes s0.w.mem s0.self.target_ (GetJumpSize env.arch) :=
        readBytes_congr _ _ _ _ hkeep

theorem sample_amd64_call_self :
    (PatchDetour.Apply (sampleEnv .amd64)
      (sampleDetour [0xE8, 0x10, 0x00, 0x00, 0x00, 0x90])).2.self =
    { process_ := some 1, applied_ := true, target_ := 0x401000, detour_ := 0x601000,
      trampoline_ := some ⟨0x500000, 45⟩, orig_ := [0xE8, 0x10, 0x00, 0x00, 0x00, 0x90],
      trampolines_ := [⟨0x501000, 0x1000⟩, ⟨0x4FF000, 0x1000⟩, ⟨0x402000, 0x1000⟩] } := by
  decide!

/-- On the 64-bit build, a detour over `call +0x10; nop` at `0x401000`, with
the primary trampoline at `0x500000` and the auxiliary ones at `0x501000`,
`0x4FF000` and `0x402000`: after `Apply` and `Remove` the six bytes at the
target are the original ones and the patch holds no trampoline. -/
theorem PatchDetour_round_trip_witness :
    readBytes (PatchDetour.Remove (sampleEnv .amd64) (PatchDetour.Apply (sampleEnv .amd64)
      (sampleDetour [0xE8, 0x10, 0x00, 0x00, 0x00, 0x90])).2).2.w.mem 0x401000 6
      = [0xE8, 0x10, 0x00, 0x00, 0x00, 0x90] ∧
    (PatchDetour.Remove (sampleEnv .amd64) (PatchDetour.Apply (sampleEnv .amd64)
      (sampleDetour [0xE8, 0x10, 0x00, 0x00, 0x00, 0x90])).2).2.self.IsApplied = false ∧
    (PatchDetour.Remove (sampleEnv .amd64) (PatchDetour.Apply (sampleEnv .amd64)
      (sampleDetour [0xE8, 0x10, 0x00, 0x00, 0x00, 0x90])).2).2.self.trampoline_ = none ∧
    (PatchDetour.Remove (sampleEnv .amd64) (PatchDetour.Apply (sampleEnv .amd64)
      (sampleDetour [0xE8, 0x10, 0x00, 0x00, 0x00, 0x90])).2).2.self.trampolines_ = [] :=
  have h := PatchDetour_round_trip (sampleEnv .amd64)
    (sampleDetour [0xE8, 0x10, 0x00, 0x00, 0x00, 0x90])
    (PatchDetour.Apply (sampleEnv .amd64) (sampleDetour [0xE8, 0x10, 0x00, 0x00, 0x00, 0x90])).2
    (PatchDetour.Remove (sampleEnv .amd64) (PatchDetour.Apply (sampleEnv .amd64)
      (sampleDetour [0xE8, 0x10, 0x00, 0x00, 0x00, 0x90])).2).2
    (sampleDecode_sane .amd64) (by decide) rfl (Exec.run_eq_ok (by decide!))
    (by
      rw [sample_amd64_call_self]
      intro r hr
      simp only [Option.some.injEq, List.mem_cons, List.mem_singleton, List.not_mem_nil,
        or_false] at hr
      rcases hr with hr | hr | hr | hr <;> subst hr <;> decide)
    (Exec.run_eq_ok (by decide!))
  ⟨h.1.trans (by decide), h.2⟩

/-! ## C3: a failed Apply keeps its trampolines -/

/-- C3. `Apply` has no handler around its steps: what was allocated before a
step throws stays in the patch.  On the 32-bit build, with the read of the
prologue refused, `Apply` throws after the allocation of the primary
trampoline and the patch still holds it, nothing having been released; on the
64-bit build, with the flush of the trampoline refused, the patch still holds
the primary trampoline and the two auxiliary ones allocated so far.
`IsApplied` is false in both cases. -/
theorem PatchDetour_apply_failure_keeps_trampolines :
    (PatchDetour.Apply (sampleEnvNoRead .x86)
      (sampleDetour [0x55, 0x8B, 0xEC, 0x83, 0xEC, 0x10])).1 = .error .ReadFailed ∧
    (PatchDetour.Apply (sampleEnvNoRead .x86)
      (sampleDetour [0x55, 0x8B, 0xEC, 0x83, 0xEC, 0x10])).2.self =
      { process_ := some 1, applied_ := false, target_ := 0x401000, detour_ := 0x601000,
        trampoline_ := some ⟨0x500000, 45⟩, orig_ := [], trampolines_ := [] } ∧
    (PatchDetour.Apply (sampleEnvNoRead .x86)
      (sampleDetour [0x55, 0x8B, 0xEC, 0x83, 0xEC, 0x10])).2.w.trace =
      [.alloc none 45 (some 0x500000), .read 0x401000 45] ∧
    (PatchDetour.Apply (sampleEnvNoFlush .amd64)
      (sampleDetour [0xE8, 0x10, 0x00, 0x00, 0x00, 0x90])).1 = .error .FlushFailed ∧
    (PatchDetour.Apply (sampleEnvNoFlush .amd64)
      (sampleDetour [0xE8, 0x10, 0x00, 0x00, 0x00, 0x90])).2.self =
      { process_ := some 1, applied_ := false, target_ := 0x401000, detour_ := 0x601000,
        trampoline_ := some ⟨0x500000, 45⟩, orig_ := [],
        trampolines_ := [⟨0x501000, 0x1000⟩, ⟨0x4FF000, 0x1000⟩] } := by
  refine ⟨?_, ?_, ?_, ?_, ?_⟩ <;> decide!

/-! ## C4: a prologue that starts with a terminator is not refused -/

/-- C4. `Apply` does not look at what the decoded instructions are, apart from
relative `jmp` and `call`.  On a target that begins with `ret` (`C3`) followed
by `int3` padding it returns normally: the `ret` and four `int3` are copied to
the trampoline, the patch is applied and holds the trampoline, and the five
bytes at the target have become the jump to the detour. -/
theorem PatchDetour_apply_over_ret :
    sampleDecode (readBytes (sampleWorld [0xC3]).mem 0x401000 45) = ⟨1, .UD_Iret, none⟩ ∧
    (PatchDetour.Apply (sampleEnv .x86) (sampleDetour [0xC3])).1 = .ok () ∧
    (PatchDetour.Apply (sampleEnv .x86) (sampleDetour [0xC3])).2.self =
      { process_ := some 1, applied_ := true, target_ := 0x401000, detour_ := 0x601000,
        trampoline_ := some ⟨0x500000, 45⟩, orig_ := [0xC3, 0xCC, 0xCC, 0xCC, 0xCC],
        trampolines_ := [] } ∧
    readBytes (sampleDetour [0xC3]).w.mem 0x401000 5 = [0xC3, 0xCC, 0xCC, 0xCC, 0xCC] ∧
    readBytes (PatchDetour.Apply (sampleEnv .x86) (sampleDetour [0xC3])).2.w.mem 0x401000 5 =
      [0xE9, 0xFB, 0xFF, 0x1F, 0x00] ∧
    readBytes (PatchDetour.Apply (sampleEnv .x86) (sampleDetour [0xC3])).2.w.mem 0x500000 10 =
      [0xC3, 0xCC, 0xCC, 0xCC, 0xCC, 0xE9, 0xFB, 0x0F, 0xF0, 0xFF] := by
  refine ⟨?_, ?_, ?_, ?_, ?_, ?_⟩ <;> decide!

/-! ## C9: the flush of the trampoline on the 64-bit build -/

/-- C9. The calls issued by `Apply` on the 64-bit build over `call +0x10; nop`
at `0x401000` with the primary trampoline at `0x500000`.  The relocated call
takes six bytes instead of five, so the trampoline is written up to
`0x50000D` (the tail jump is the six bytes at `0x500007`), but the flush issued
before the target is written covers `instr_size + GetJumpSize() = 12` bytes,
up to `0x50000C`. -/
theorem PatchDetour_apply_trace_amd64 :
    (PatchDetour.Apply (sampleEnv .amd64)
      (sampleDetour [0xE8, 0x10, 0x00, 0x00, 0x00, 0x90])).1 = .ok () ∧
    (PatchDetour.Apply (sampleEnv .amd64)
      (sampleDetour [0xE8, 0x10, 0x00, 0x00, 0x00, 0x90])).2.w.trace =
      [.alloc none 45 (some 0x500000),
       .read 0x401000 45,
       .alloc (some 0x500000) 0x1000 none,
       .alloc (some 0x500000) 0x1000 none,
       .alloc (some 0x501000) 0x1000 (some 0x501000),
       .write 0x501000 [0x15, 0x10, 0x40, 0x00, 0x00, 0x00, 0x00, 0x00],
       .write 0x500000 [0xFF, 0x15, 0xFA, 0x0F, 0x00, 0x00],
       .write 0x500006 [0x90],
       .alloc (some 0x500007) 0x1000 none,
       .alloc (some 0x500007) 0x1000 none,
       .alloc (some 0x501007) 0x1000 none,
       .alloc (some 0x4FF007) 0x1000 (some 0x4FF000),
       .write 0x4FF000 [0x06, 0x10, 0x40, 0x00, 0x00, 0x00, 0x00, 0x00],
       .write 0x500007 [0xFF, 0x25, 0xF3, 0xEF, 0xFF, 0xFF],
       .flush 0x500000 12,
       .read 0x401000 6,
       .alloc (some 0x401000) 0x1000 none,
       .alloc (some 0x401000) 0x1000 none,
       .alloc (some 0x402000) 0x1000 (some 0x402000),
       .write 0x402000 [0x00, 0x10, 0x60, 0x00, 0x00, 0x00, 0x00, 0x00],
       .write 0x401000 [0xFF, 0x25, 0xFA, 0x0F, 0x00, 0x00],
       .flush 0x401000 6] ∧
    0x500000 + 12 < 0x500007 + 6 := by
  refine ⟨?_, ?_, ?_⟩ <;> decide!

/-! ## C7, C8: moves, destructors and the guards on the applied flag -/

theorem PatchRaw.RawApply_applied (env : Env) (s : Ctx PatchRaw) (h : s.self.applied_ = true) :
    PatchRaw.Apply env s = (.ok (), s) := by
  unfold PatchRaw.Apply
  simp only [getSelf_seq, h, if_true, Exec.pure_run]

theorem PatchRaw.RawRemove_unapplied (env : Env) (s : Ctx PatchRaw)
    (h : s.self.applied_ = false) : PatchRaw.Remove env s = (.ok (), s) := by
  unfold PatchRaw.Remove
  simp only [getSelf_seq, h, Bool.not_false, if_true, Exec.pure_run]

theorem PatchDetour.Apply_applied (env : Env) (s : Ctx PatchDetour)
    (h : s.self.applied_ = true) : PatchDetour.Apply env s = (.ok (), s) := by
  unfold PatchDetour.Apply
  simp only [getSelf_seq, h, if_true, Exec.pure_run]

theorem PatchDetour.Remove_unapplied (env : Env) (s : Ctx PatchDetour)
    (h : s.self.applied_ = false) : PatchDetour.Remove env s = (.ok (), s) := by
  unfold PatchDetour.Remove
  simp only [getSelf_seq, h, Bool.not_false, if_true, Exec.pure_run]

/-- A normal return of `PatchRaw::Apply` leaves the flag set. -/
theorem PatchRaw.RawApply_ok_applied {env : Env} {s s1 : Ctx PatchRaw}
    (h : PatchRaw.Apply env s = (.ok (), s1)) : s1.self.applied_ = true := by
  cases ha : s.self.applied_ with
  | true =>
      rw [PatchRaw.RawApply_applied env s ha] at h
      simp only [Prod.mk.injEq, true_and] at h
      rw [← h, ha]
  | false =>
      unfold PatchRaw.Apply at h
      simp only [getSelf_seq, ha, Bool.false_eq_true, if_false] at h
      obtain ⟨u0, t0, _, h⟩ := Exec.bind_eq_ok h
      obtain ⟨orig, t1, _, h⟩ := Exec.bind_eq_ok h
      simp only [modifySelf_bind] at h
      obtain ⟨u2, t2, _, h⟩ := Exec.bind_eq_ok h
      obtain ⟨u3, t3, _, h⟩ := Exec.bind_eq_ok h
      simp only [modifySelf, Prod.mk.injEq, true_and] at h
      rw [← h]

/-- A normal return of `PatchRaw::Remove` leaves the flag clear. -/
theorem PatchRaw.RawRemove_ok_unapplied {env : Env} {s s1 : Ctx PatchRaw}
    (h : PatchRaw.Remove env s = (.ok (), s1)) : s1.self.applied_ = false := by
  cases ha : s.self.applied_ with
  | false =>
      rw [PatchRaw.RawRemove_unapplied env s ha] at h
      simp only [Prod.mk.injEq, true_and] at h
      rw [← h, ha]
  | true =>
      unfold PatchRaw.Remove at h
      simp only [getSelf_seq, ha, Bool.not_true, Bool.false_eq_true, if_false] at h
      obtain ⟨u0, t0, _, h⟩ := Exec.bind_eq_ok h
      obtain ⟨u2, t2, _, h⟩ := Exec.bind_eq_ok h
      obtain ⟨u3, t3, _, h⟩ := Exec.bind_eq_ok h
      simp only [modifySelf, Prod.mk.injEq, true_and] at h
      rw [← h]

theorem PatchDetour.Apply_ok_applied {env : Env} {s s1 : Ctx PatchDetour}
    (h : PatchDetour.Apply env s = (.ok (), s1)) : s1.self.applied_ = true := by
  cases ha : s.self.applied_ with
  | true =>
      rw [PatchDetour.Apply_applied env s ha] at h
      simp only [Prod.mk.injEq, true_and] at h
      rw [← h, ha]
  | false =>
      obtain ⟨_, _, _, _, _, _, s9, _, _, _, _, _, _, _, _, e1, _⟩ := PatchDetour.Apply_ok h ha
      rw [e1]

theorem PatchDetour.Remove_ok_unapplied {env : Env} {s s1 : Ctx PatchDetour}
    (h : PatchDetour.Remove env s = (.ok (), s1)) : s1.self.applied_ = false := by
  cases ha : s.self.applied_ with
  | false =>
      rw [PatchDetour.Remove_unapplied env s ha] at h
      simp only [Prod.mk.injEq, true_and] at h
      rw [← h, ha]
  | true =>
      rw [PatchDetour.Remove_ok h ha]

/-- C8. `Apply` on a patch whose `IsApplied` is true and `Remove` on a patch
whose `IsApplied` is false return normally and leave the process (memory and
calls issued) and every field of the patch as they were, for `PatchRaw` and
for `PatchDetour`; hence after an `Apply` that returned normally a second
`Apply` changes nothing, and after a `Remove` that returned normally a second
`Remove` changes nothing. -/
theorem patch_idempotence (env : Env) :
    (∀ s : Ctx PatchRaw, s.self.IsApplied = true → PatchRaw.Apply env s = (.ok (), s)) ∧
    (∀ s : Ctx PatchRaw, s.self.IsApplied = false → PatchRaw.Remove env s = (.ok (), s)) ∧
    (∀ s : Ctx PatchDetour, s.self.IsApplied = true →
      PatchDetour.Apply env s = (.ok (), s)) ∧
    (∀ s : Ctx PatchDetour, s.self.IsApplied = false →
      PatchDetour.Remove env s = (.ok (), s)) ∧
    (∀ s s1 : Ctx PatchRaw, PatchRaw.Apply env s = (.ok (), s1) →
      PatchRaw.Apply env s1 = (.ok (), s1)) ∧
    (∀ s s1 : Ctx PatchRaw, PatchRaw.Remove env s = (.ok (), s1) →
      PatchRaw.Remove env s1 = (.ok (), s1)) ∧
    (∀ s s1 : Ctx PatchDetour, PatchDetour.Apply env s = (.ok (), s1) →
      PatchDetour.Apply env s1 = (.ok (), s1)) ∧
    (∀ s s1 : Ctx PatchDetour, PatchDetour.Remove env s = (.ok (), s1) →
      PatchDetour.Remove env s1 = (.ok (), s1)) :=
  ⟨fun s h => PatchRaw.RawApply_applied env s h,
   fun s h => PatchRaw.RawRemove_unapplied env s h,
   fun s h => PatchDetour.Apply_applied env s h,
   fun s h => PatchDetour.Remove_unapplied env s h,
   fun _ s1 h => PatchRaw.RawApply_applied env s1 (PatchRaw.RawApply_ok_applied h),
   fun _ s1 h => PatchRaw.RawRemove_unapplied env s1 (PatchRaw.RawRemove_ok_unapplied h),
   fun _ s1 h => PatchDetour.Apply_applied env s1 (PatchDetour.Apply_ok_applied h),
   fun _ s1 h => PatchDetour.Remove_unapplied env s1 (PatchDetour.Remove_ok_unapplied h)⟩

/-- The detour of scenario S2 applied twice on the 32-bit build: the second
`Apply` returns the state left by the first. -/
theorem patch_idempotence_witness :
    PatchDetour.Apply (sampleEnv .x86)
      (PatchDetour.Apply (sampleEnv .x86)
        (sampleDetour [0x55, 0x8B, 0xEC, 0x83, 0xEC, 0x10])).2 =
      (.ok (), (PatchDetour.Apply (sampleEnv .x86)
        (sampleDetour [0x55, 0x8B, 0xEC, 0x83, 0xEC, 0x10])).2) :=
  (patch_idempotence (sampleEnv .x86)).2.2.2.2.2.2.1
    (sampleDetour [0x55, 0x8B, 0xEC, 0x83, 0xEC, 0x10])
    (PatchDetour.Apply (sampleEnv .x86) (sampleDetour [0x55, 0x8B, 0xEC, 0x83, 0xEC, 0x10])).2
    (Exec.run_eq_ok (by decide!))

/-- The destructor of a patch that is not applied and holds nothing issues no
call and changes nothing. -/
theorem PatchDetour.dtor_empty (env : Env) (w : World) (p : PatchDetour)
    (ha : p.applied_ = false) (ht : p.trampoline_ = none) (hts : p.trampolines_ = []) :
    PatchDetour.dtor env ⟨w, p⟩ = w := by
  unfold PatchDetour.dtor PatchDetour.RemoveUnchecked
  rw [PatchDetour.Remove_unapplied env ⟨w, p⟩ ha]
  simp only [hts]
  have h1 : (destroyAll [] : Exec PatchDetour Unit) ⟨w, p⟩ = (.ok (), ⟨w, p⟩) := rfl
  rw [h1]
  simp only [ht]
  rfl

/-- The destructor of an applied patch issues the write of the captured bytes
and the release of every trampoline held, each once, whether or not the
write is accepted; when it is accepted the bytes are stored. -/
theorem PatchDetour.dtor_applied (env : Env) (w : World) (p : PatchDetour) (pid : Nat)
    (ha : p.applied_ = true) (hp : p.process_ = some pid) :
    (PatchDetour.dtor env ⟨w, p⟩).trace =
      w.trace ++ Event.write p.target_ p.orig_ ::
        (frees p.trampoline_.toList ++ frees p.trampolines_) ∧
    (env.writeOk w p.target_ p.orig_ = true →
      (PatchDetour.dtor env ⟨w, p⟩).mem = writeBytes w.mem p.target_ p.orig_) := by
  cases hw : env.writeOk w p.target_ p.orig_ with
  | true =>
      unfold PatchDetour.dtor PatchDetour.RemoveUnchecked
      rw [PatchDetour.Remove_run_ok env ⟨w, p⟩ pid ha hp hw]
      simp [destroyAll_run, destroyOpt_run, frees]
  | false =>
      unfold PatchDetour.dtor PatchDetour.RemoveUnchecked
      rw [PatchDetour.Remove_run_error env ⟨w, p⟩ pid ha hp hw]
      simp [destroyAll_run, destroyOpt_run, frees, World.log]

/-- C7. Move-constructing `q` from a patch `p` gives `q` every member `p`
had (process, target, detour, flag, captured bytes, trampolines) and leaves
`p` unapplied with null process and target and no trampoline, for `PatchRaw`
and for `PatchDetour`.  For an applied `PatchDetour` with a process, in
`q = move(p); drop(p); drop(q)` the destructor of `p` issues no call and
changes nothing, and the two destructors together issue one write of the
captured bytes at the target and one release per trampoline held; the write
stores the captured bytes when the process accepts it. -/
theorem move_transfer (env : Env) :
    (∀ p : PatchRaw, (PatchRaw.moveCtor p).1 = p ∧
      (PatchRaw.moveCtor p).2 =
        { process_ := none, applied_ := false, target_ := 0, data_ := [], orig_ := [] }) ∧
    (∀ p : PatchDetour, (PatchDetour.moveCtor p).1 = p ∧
      (PatchDetour.moveCtor p).2 =
        { process_ := none, applied_ := false, target_ := 0, detour_ := 0,
          trampoline_ := none, orig_ := [], trampolines_ := [] }) ∧
    (∀ (w : World) (p : PatchDetour) (pid : Nat), p.IsApplied = true →
      p.process_ = some pid →
      PatchDetour.dtor env ⟨w, (PatchDetour.moveCtor p).2⟩ = w ∧
      (PatchDetour.dtor env
        ⟨PatchDetour.dtor env ⟨w, (PatchDetour.moveCtor p).2⟩,
          (PatchDetour.moveCtor p).1⟩).trace =
        w.trace ++ Event.write p.target_ p.orig_ ::
          (frees p.trampoline_.toList ++ frees p.trampolines_) ∧
      (env.writeOk w p.target_ p.orig_ = true →
        (PatchDetour.dtor env
          ⟨PatchDetour.dtor env ⟨w, (PatchDetour.moveCtor p).2⟩,
            (PatchDetour.moveCtor p).1⟩).mem = writeBytes w.mem p.target_ p.orig_)) := by
  refine ⟨fun p => ⟨rfl, rfl⟩, fun p => ⟨rfl, rfl⟩, ?_⟩
  intro w p pid ha hp
  have h0 : PatchDetour.dtor env ⟨w, (PatchDetour.moveCtor p).2⟩ = w :=
    PatchDetour.dtor_empty env w _ rfl rfl rfl
  have hq : (PatchDetour.moveCtor p).1 = p := rfl
  rw [h0, hq]
  exact ⟨rfl, PatchDetour.dtor_applied env w p pid ha hp⟩

/-- Scenario S6 on the 64-bit build: the detour over `call +0x10; nop` is
applied, moved, and both objects are destroyed.  After `Apply` the two
destructors issue the write of the six captured bytes and the release of the
primary trampoline and of the three auxiliary ones, and nothing else. -/
theorem move_transfer_witness :
    (PatchDetour.dtor (sampleEnv .amd64)
      ⟨PatchDetour.dtor (sampleEnv .amd64)
        ⟨(PatchDetour.Apply (sampleEnv .amd64)
            (sampleDetour [0xE8, 0x10, 0x00, 0x00, 0x00, 0x90])).2.w,
          (PatchDetour.moveCtor (PatchDetour.Apply (sampleEnv .amd64)
            (sampleDetour [0xE8, 0x10, 0x00, 0x00, 0x00, 0x90])).2.self).2⟩,
        (PatchDetour.moveCtor (PatchDetour.Apply (sampleEnv .amd64)
            (sampleDetour [0xE8, 0x10, 0x00, 0x00, 0x00, 0x90])).2.self).1⟩).trace =
      (PatchDetour.Apply (sampleEnv .amd64)
        (sampleDetour [0xE8, 0x10, 0x00, 0x00, 0x00, 0x90])).2.w.trace ++
      [.write 0x401000 [0xE8, 0x10, 0x00, 0x00, 0x00, 0x90], .free 0x500000 45,
       .free 0x501000 0x1000, .free 0x4FF000 0x1000, .free 0x402000 0x1000] :=
  ((move_transfer (sampleEnv .amd64)).2.2
    (PatchDetour.Apply (sampleEnv .amd64)
      (sampleDetour [0xE8, 0x10, 0x00, 0x00, 0x00, 0x90])).2.w
    (PatchDetour.Apply (sampleEnv .amd64)
      (sampleDetour [0xE8, 0x10, 0x00, 0x00, 0x00, 0x90])).2.self 1
    (by decide!) (by decide!)).2.1.trans
    (by rw [sample_amd64_call_self]; rfl)

/-! ## C10: Remove issues no flush -/

/-- C10. The calls issued by `Apply` followed by `Remove` in scenario S2 on
the 32-bit build.  `PatchDetour::Remove` writes the five captured bytes at
the target and releases the trampoline; no flush of the restored range is
issued between the two, nor after.  `PatchRaw::Remove` on the same target
does flush after its write. -/
theorem PatchDetour_remove_trace :
    (PatchDetour.Remove (sampleEnv .x86) (PatchDetour.Apply (sampleEnv .x86)
      (sampleDetour [0x55, 0x8B, 0xEC, 0x83, 0xEC, 0x10])).2).1 = .ok () ∧
    (PatchDetour.Remove (sampleEnv .x86) (PatchDetour.Apply (sampleEnv .x86)
      (sampleDetour [0x55, 0x8B, 0xEC, 0x83, 0xEC, 0x10])).2).2.w.trace =
      [.alloc none 45 (some 0x500000),
       .read 0x401000 45,
       .write 0x500000 [0x55],
       .write 0x500001 [0x8B, 0xEC],
       .write 0x500003 [0x83, 0xEC, 0x10],
       .write 0x500006 [0xE9, 0xFB, 0x0F, 0xF0, 0xFF],
       .flush 0x500000 11,
       .read 0x401000 5,
       .write 0x401000 [0xE9, 0xFB, 0xFF, 0x1F, 0x00],
       .flush 0x401000 5,
       .write 0x401000 [0x55, 0x8B, 0xEC, 0x83, 0xEC],
       .free 0x500000 45] ∧
    (PatchRaw.Remove (sampleEnv .x86) (PatchRaw.Apply (sampleEnv .x86)
      ⟨sampleWorld [0x55, 0x8B, 0xEC, 0x83, 0xEC, 0x10],
        PatchRaw.create 1 0x401000 [0xE9, 0xFB, 0xFF, 0x1F, 0x00]⟩).2).2.w.trace =
      [.read 0x401000 5,
       .write 0x401000 [0xE9, 0xFB, 0xFF, 0x1F, 0x00],
       .flush 0x401000 5,
       .write 0x401000 [0x55, 0x8B, 0xEC, 0x83, 0xEC],
       .flush 0x401000 5] := by
  refine ⟨?_, ?_, ?_⟩ <;> decide!

/-! ## C5: relocation of relative branches -/

theorem leBytes_succ (k v : Nat) : leBytes (k + 1) v = v % 256 :: leBytes k (v / 256) := by
  unfold leBytes
  rw [List.range_succ_eq_map, List.map_cons, List.map_map]
  congr 1
  · simp
  · apply List.map_congr_left
    intro i _
    simp only [Function.comp_apply, Nat.succ_eq_add_one]
    rw [Nat.pow_succ, Nat.mul_comm, Nat.div_div_eq_div_mul]

theorem leValue_leBytes (k v : Nat) : leValue (leBytes k v) = v % 256 ^ k := by
  induction k generalizing v with
  | zero => simp [leBytes, leValue, Nat.mod_one]
  | succ n ih =>
      rw [leBytes_succ, leValue, ih, Nat.pow_succ, Nat.mul_comm (256 ^ n) 256, Nat.mod_mul]

theorem branchTarget_lt (arch : Arch) (a : Nat) (d : Int) (len : Nat) :
    branchTarget arch a d len < 2 ^ arch.ptrBits := by
  unfold branchTarget
  have hpos : (0 : Int) < 2 ^ arch.ptrBits := by positivity
  have h1 := Int.emod_lt_of_pos ((a : Int) + d + (len : Int)) hpos
  have h2 := Int.emod_nonneg ((a : Int) + d + (len : Int)) (ne_of_gt hpos)
  have h3 : ((((a : Int) + d + (len : Int)) % 2 ^ arch.ptrBits).toNat : Int) <
      ((2 ^ arch.ptrBits : Nat) : Int) := by
    rw [Int.toNat_of_nonneg h2]
    push_cast
    exact h1
  exact_mod_cast h3

theorem branchTarget_eq (arch : Arch) (a : Nat) (d : Int) (len : Nat)
    (h0 : 0 ≤ (a : Int) + (len : Int) + d) (h1 : (a : Int) + (len : Int) + d < 2 ^ arch.ptrBits) :
    (branchTarget arch a d len : Int) = (a : Int) + (len : Int) + d := by
  unfold branchTarget
  have e : (a : Int) + d + (len : Int) = (a : Int) + (len : Int) + d := by ring
  rw [e, Int.emod_eq_of_lt h0 h1, Int.toNat_of_nonneg h0]

theorem readBytes_writeBytes_len (mem : Nat → Nat) (addr n : Nat) (bs : List Nat)
    (h : bs.length = n) : readBytes (writeBytes mem addr bs) addr n = bs := by
  rw [← h]
  exact readBytes_writeBytes _ _ _

/-- C5. For an instruction decoded by a pass of the loop of `Apply` that returns
normally, at address `a = target_ + instr_size`, of length `L`: when it is a
`jmp` or `call` whose operand 0 is a 32-bit relative immediate `d`, the pass is
`WriteJump` (for `jmp`) or `WriteCall` (for `call`) at the cursor with
destination `a + L + d` in pointer arithmetic (equal to `a + L + d` whenever
that is an address) and the cursor moves by `GetJumpSize()` or
`GetCallSize()`; on the 32-bit build the cursor then holds `E9` or `E8` and
the displacement to that destination, on the 64-bit build one auxiliary
trampoline is added, the cursor holds `FF 25` or `FF 15` and the displacement
to it, and its first eight bytes hold the destination.  Any other instruction
is stored at the cursor as it stands and the cursor moves by `L`. -/
theorem PatchDetour_relocation (env : Env) (buffer : List Nat) (c c1 : Cursor)
    (s s1 : Ctx PatchDetour)
    (h : PatchDetour.ApplyInsn env buffer c s = (.ok c1, s1)) :
    c1.instr_size = c.instr_size + (env.ud_disassemble (buffer.drop c.instr_size)).len ∧
    (∀ op, (env.ud_disassemble (buffer.drop c.instr_size)).relBranch = some op →
      ((env.ud_disassemble (buffer.drop c.instr_size)).mnemonic = .UD_Ijmp →
        WriteJump env c.tramp_cur
          (branchTarget env.arch (s.self.target_ + c.instr_size) op.sdword
            (env.ud_disassemble (buffer.drop c.instr_size)).len) s = (.ok (), s1) ∧
        c1.tramp_cur = c.tramp_cur + GetJumpSize env.arch) ∧
      ((env.ud_disassemble (buffer.drop c.instr_size)).mnemonic ≠ .UD_Ijmp →
        WriteCall env c.tramp_cur
          (branchTarget env.arch (s.self.target_ + c.instr_size) op.sdword
            (env.ud_disassemble (buffer.drop c.instr_size)).len) s = (.ok (), s1) ∧
        c1.tramp_cur = c.tramp_cur + GetCallSize env.arch) ∧
      (0 ≤ ((s.self.target_ + c.instr_size : Nat) : Int) +
          ((env.ud_disassemble (buffer.drop c.instr_size)).len : Int) + op.sdword →
        ((s.self.target_ + c.instr_size : Nat) : Int) +
          ((env.ud_disassemble (buffer.drop c.instr_size)).len : Int) + op.sdword <
            2 ^ env.arch.ptrBits →
        ((branchTarget env.arch (s.self.target_ + c.instr_size) op.sdword
            (env.ud_disassemble (buffer.drop c.instr_size)).len : Nat) : Int) =
          ((s.self.target_ + c.instr_size : Nat) : Int) +
            ((env.ud_disassemble (buffer.drop c.instr_size)).len : Int) + op.sdword) ∧
      (env.arch = .x86 →
        readBytes s1.w.mem c.tramp_cur 5 =
          (if (env.ud_disassemble (buffer.drop c.instr_size)).mnemonic = .UD_Ijmp
            then 0xE9 else 0xE8) ::
          leBytes 4 ((((branchTarget env.arch (s.self.target_ + c.instr_size) op.sdword
            (env.ud_disassemble (buffer.drop c.instr_size)).len : Nat) : Int) -
              ((c.tramp_cur : Int) + 5)) % 2 ^ 32).toNat) ∧
      (env.arch = .amd64 →
        (∃ slot : Allocator, s1.self.trampolines_ = s.self.trampolines_ ++ [slot]) ∧
        ∀ slot : Allocator, s1.self.trampolines_ = s.self.trampolines_ ++ [slot] →
          readBytes s1.w.mem c.tramp_cur 6 =
            [0xFF, if (env.ud_disassemble (buffer.drop c.instr_size)).mnemonic = .UD_Ijmp
              then 0x25 else 0x15] ++
            leBytes 4 ((((slot.base : Int) - ((c.tramp_cur : Int) + 6)) % 2 ^ 32).toNat) ∧
          (slot.base + 8 ≤ c.tramp_cur ∨ c.tramp_cur + 6 ≤ slot.base →
            leValue (readBytes s1.w.mem slot.base 8) =
              branchTarget env.arch (s.self.target_ + c.instr_size) op.sdword
                (env.ud_disassemble (buffer.drop c.instr_size)).len))) ∧
    ((env.ud_disassemble (buffer.drop c.instr_size)).relBranch = none →
      c1.tramp_cur = c.tramp_cur + (env.ud_disassemble (buffer.drop c.instr_size)).len ∧
      (c.instr_size + (env.ud_disassemble (buffer.drop c.instr_size)).len ≤ buffer.length →
        readBytes s1.w.mem c.tramp_cur (env.ud_disassemble (buffer.drop c.instr_size)).len =
          (buffer.drop c.instr_size).take
            (env.ud_disassemble (buffer.drop c.instr_size)).len)) := by
  obtain ⟨_, hsz, hbr, hcp⟩ := PatchDetour.ApplyInsn_ok h
  generalize env.ud_disassemble (buffer.drop c.instr_size) = insn at hsz hbr hcp ⊢
  refine ⟨hsz, ?_, ?_⟩
  · intro op hop
    obtain ⟨hw, hcur⟩ := hbr op hop
    refine ⟨?_, ?_, ?_, ?_, ?_⟩
    · intro hj
      simp only [hj, ne_eq, not_true_eq_false, decide_False, if_true] at hw hcur
      exact ⟨hw, hcur⟩
    · intro hj
      simp only [hj, ne_eq, not_false_eq_true, decide_True, if_false] at hw hcur
      exact ⟨hw, hcur⟩
    · exact branchTarget_eq _ _ _ _
    · intro harch
      rcases WriteBranch_ok hw with ⟨_, _, hm⟩ | ⟨ha, _⟩
      · rw [hm, readBytes_writeBytes_len _ _ _ _ (asmRel32_length _ _ _)]
        unfold asmRel32
        by_cases hj : insn.mnemonic = .UD_Ijmp <;> simp [hj]
      · rw [harch] at ha
        cases ha
    · intro harch
      rcases WriteBranch_ok hw with ⟨ha, _⟩ | ⟨_, slot0, _, hself, hm⟩
      · rw [harch] at ha
        cases ha
      · have hts : s1.self.trampolines_ = s.self.trampolines_ ++ [slot0] := by rw [hself]
        refine ⟨⟨slot0, hts⟩, ?_⟩
        intro slot hslot
        have e : slot = slot0 := by
          rw [hts] at hslot
          have := List.append_cancel_left hslot
          simpa using this.symm
        subst e
        refine ⟨?_, ?_⟩
        · rw [hm, readBytes_writeBytes_len _ _ _ _ (asmRipIndirect_length _ _)]
          unfold asmRipIndirect
          have e2 : (slot.base : Int) - (c.tramp_cur : Int) - 4 - 2 =
              (slot.base : Int) - ((c.tramp_cur : Int) + 6) := by ring
          rw [e2]
          by_cases hj : insn.mnemonic = .UD_Ijmp <;> simp [hj]
        · intro hd
          have hread : readBytes s1.w.mem slot.base 8 =
              leBytes 8 (branchTarget env.arch (s.self.target_ + c.instr_size) op.sdword
                insn.len) := by
            rw [hm]
            have h1 : readBytes (writeBytes (writeBytes s.w.mem slot.base
                  (leBytes 8 (branchTarget env.arch (s.self.target_ + c.instr_size) op.sdword
                    insn.len))) c.tramp_cur
                  (asmRipIndirect (if decide (insn.mnemonic ≠ .UD_Ijmp) = true then 0x15
                    else 0x25) ((slot.base : Int) - (c.tramp_cur : Int) - 4))) slot.base 8 =
                readBytes (writeBytes s.w.mem slot.base
                  (leBytes 8 (branchTarget env.arch (s.self.target_ + c.instr_size) op.sdword
                    insn.len))) slot.base 8 := by
              apply readBytes_congr
              intro x hx1 hx2
              apply writeBytes_outside
              rw [asmRipIndirect_length]
              omega
            rw [h1]
            exact readBytes_writeBytes_len _ _ _ _ (leBytes_length _ _)
          rw [hread, leValue_leBytes]
          have hlt := branchTarget_lt env.arch (s.self.target_ + c.instr_size) op.sdword insn.len
          rw [harch] at hlt
          apply Nat.mod_eq_of_lt
          rw [harch]
          exact hlt
  · intro hnone
    obtain ⟨hw, hcur⟩ := hcp hnone
    refine ⟨hcur, ?_⟩
    intro hfit
    obtain ⟨_, hm, _⟩ := WriteVector_ok hw
    rw [hm]
    apply readBytes_writeBytes_len
    rw [List.length_take, List.length_drop]
    omega

/-- Scenario S3: on the 64-bit build, `E8 10 00 00 00` at `A = 0x401000` is
decoded with the cursor at the start of the primary trampoline `0x500000`;
the auxiliary slot obtained at `0x501000` holds `A + 5 + 0x10`. -/
theorem PatchDetour_relocation_witness :
    leValue (readBytes (PatchDetour.ApplyInsn (sampleEnv .amd64)
      (readBytes (sampleWorld [0xE8, 0x10, 0x00, 0x00, 0x00, 0x90]).mem 0x401000 45)
      ⟨0x500000, 0⟩
      (Allocator.create (sampleEnv .amd64) 45
        (sampleDetour [0xE8, 0x10, 0x00, 0x00, 0x00, 0x90])).2).2.w.mem 0x501000 8) =
      0x401000 + 5 + 0x10 := by
  have h := PatchDetour_relocation (sampleEnv .amd64)
    (readBytes (sampleWorld [0xE8, 0x10, 0x00, 0x00, 0x00, 0x90]).mem 0x401000 45)
    ⟨0x500000, 0⟩ ⟨0x500006, 5⟩
    (Allocator.create (sampleEnv .amd64) 45
      (sampleDetour [0xE8, 0x10, 0x00, 0x00, 0x00, 0x90])).2
    (PatchDetour.ApplyInsn (sampleEnv .amd64)
      (readBytes (sampleWorld [0xE8, 0x10, 0x00, 0x00, 0x00, 0x90]).mem 0x401000 45)
      ⟨0x500000, 0⟩
      (Allocator.create (sampleEnv .amd64) 45
        (sampleDetour [0xE8, 0x10, 0x00, 0x00, 0x00, 0x90])).2).2
    (Exec.run_eq_val (by decide!))
  have h1 := (h.2.1 ⟨.UD_OP_JIMM, 32, 16⟩ (by decide!)).2.2.2.2 rfl
  have h2 := (h1.2 ⟨0x501000, 0x1000⟩ (by decide!)).2 (Or.inr (by decide))
  exact h2.trans (by decide!)

/-! ## C6: layout of a detour on the 32-bit build -/

theorem writeBytes_append (mem : Nat → Nat) (addr : Nat) (as bs : List Nat) :
    writeBytes (writeBytes mem addr as) (addr + as.length) bs = writeBytes mem addr (as ++ bs) := by
  funext x
  unfold writeBytes
  simp only [List.length_append]
  by_cases h1 : addr + as.length ≤ x ∧ x < addr + as.length + bs.length
  · rw [if_pos h1, if_pos (by omega)]
    rw [List.getD_eq_getElem?_getD, List.getD_eq_getElem?_getD,
      List.getElem?_append_right (by omega)]
    congr 2
    omega
  · rw [if_neg h1]
    by_cases h2 : addr ≤ x ∧ x < addr + as.length
    · rw [if_pos h2, if_pos (by omega)]
      rw [List.getD_eq_getElem?_getD, List.getD_eq_getElem?_getD,
        List.getElem?_append_left (by omega)]
    · rw [if_neg h2, if_neg (by omega)]

theorem readBytes_take (mem : Nat → Nat) (addr n k : Nat) (h : k ≤ n) :
    (readBytes mem addr n).take k = readBytes mem addr k := by
  unfold readBytes
  rw [← List.map_take, List.take_range, Nat.min_eq_left h]

theorem shortestRun_of_ge (decode : List Nat → Insn) (code : List Nat) (need fuel n : Nat)
    (h : need ≤ n) : shortestRun decode code need fuel n = n := by
  cases fuel with
  | zero => rfl
  | succ k => simp [shortestRun, h]

/-- The loop of `Apply` over a run without relative branches: it consumes the
bytes of the shortest run that reaches `GetJumpSize()`, and copies them from
the buffer to the cursor. -/
theorem PatchDetour.ApplyLoop_copy {env : Env} {buffer : List Nat} (fuel : Nat)
    {c c1 : Cursor} {s s1 : Ctx PatchDetour}
    (h : PatchDetour.ApplyLoop env buffer fuel c s = (.ok c1, s1))
    (hnb : noRelBranchIn env.ud_disassemble buffer (GetJumpSize env.arch) fuel
      c.instr_size = true)
    (hlt : c.instr_size < GetJumpSize env.arch)
    (hfit : c1.instr_size ≤ buffer.length) :
    c1.instr_size =
      shortestRun env.ud_disassemble buffer (GetJumpSize env.arch) fuel c.instr_size ∧
    c.instr_size ≤ c1.instr_size ∧
    c1.tramp_cur = c.tramp_cur + (c1.instr_size - c.instr_size) ∧
    s1.self = s.self ∧
    s1.w.mem = writeBytes s.w.mem c.tramp_cur
      ((buffer.drop c.instr_size).take (c1.instr_size - c.instr_size)) := by
  induction fuel generalizing c s with
  | zero =>
      unfold PatchDetour.ApplyLoop at h
      simp [raise] at h
  | succ n ih =>
      unfold PatchDetour.ApplyLoop at h
      obtain ⟨c2, s2, h1, h2⟩ := Exec.bind_eq_ok h
      obtain ⟨_, hsz2, _, hcp⟩ := PatchDetour.ApplyInsn_ok h1
      unfold noRelBranchIn at hnb
      rw [if_neg (by omega)] at hnb
      simp only [Bool.and_eq_true, Option.isNone_iff_eq_none] at hnb
      obtain ⟨hnone, hrec⟩ := hnb
      obtain ⟨hw, hcur2⟩ := hcp hnone
      obtain ⟨hself2, hmem2, _⟩ := WriteVector_ok hw
      have hrun : shortestRun env.ud_disassemble buffer (GetJumpSize env.arch) (n + 1)
          c.instr_size =
          shortestRun env.ud_disassemble buffer (GetJumpSize env.arch) n c2.instr_size := by
        rw [hsz2]
        conv_lhs => unfold shortestRun
        rw [if_neg (by omega)]
      rw [hrun]
      split at h2
      · next hcont =>
          rw [← hsz2] at hrec
          obtain ⟨r1, r2, r3, r4, r5⟩ := ih h2 hrec hcont
          have hlenA : ((buffer.drop c.instr_size).take
              (env.ud_disassemble (buffer.drop c.instr_size)).len).length =
              (env.ud_disassemble (buffer.drop c.instr_size)).len := by
            rw [List.length_take, List.length_drop]
            omega
          refine ⟨r1, by omega, by omega, r4.trans hself2, ?_⟩
          rw [r5, hmem2, hcur2]
          have e1 : c.tramp_cur + (env.ud_disassemble (buffer.drop c.instr_size)).len =
              c.tramp_cur + ((buffer.drop c.instr_size).take
                (env.ud_disassemble (buffer.drop c.instr_size)).len).length := by
            rw [hlenA]
          rw [e1, writeBytes_append]
          have e2 : c1.instr_size - c.instr_size =
              (env.ud_disassemble (buffer.drop c.instr_size)).len +
                (c1.instr_size - c2.instr_size) := by omega
          rw [e2, List.take_add, List.drop_drop, hsz2]
      · next hstop =>
          simp only [Exec.pure_run, Prod.mk.injEq, Except.ok.injEq] at h2
          obtain ⟨e1, e2⟩ := h2
          subst e1
          subst e2
          refine ⟨(shortestRun_of_ge _ _ _ _ _ (by omega)).symm, by omega, by omega, hself2, ?_⟩
          have e3 : c2.instr_size - c.instr_size =
              (env.ud_disassemble (buffer.drop c.instr_size)).len := by omega
          rw [hmem2, e3]

/-- C6. On the 32-bit build, for an unapplied patch whose leading instructions
(up to the first five bytes) contain no `jmp` or `call` with a 32-bit relative
operand, with `n` the sum of the lengths of the shortest run of leading
instructions that reaches five bytes, and the primary trampoline at `base`
not overlapping the five bytes at the target: after `Apply` returned normally
the five bytes at the target are `E9` and `detour − (target + 5)` in 32 bits
little endian, every byte from offset 5 of the target on that does not belong
to the `n + 5` bytes of the trampoline is unchanged, the first `n` bytes of
the trampoline are the original first `n` bytes of the target, and they are
followed by `E9` and `(target + n) − (base + n + 5)` in 32 bits. -/
theorem PatchDetour_layout_x86 (env : Env) (s0 s1 : Ctx PatchDetour) (base n : Nat)
    (harch : env.arch = .x86) (hsane : DecoderSane env)
    (hun : s0.self.applied_ = false)
    (hnb : noRelBranchIn env.ud_disassemble (readBytes s0.w.mem s0.self.target_ 45) 5 5 0
      = true)
    (hn : n = shortestRun env.ud_disassemble (readBytes s0.w.mem s0.self.target_ 45) 5 5 0)
    (hA : PatchDetour.Apply env s0 = (.ok (), s1))
    (hbase : s1.self.trampoline_ = some ⟨base, 45⟩)
    (hdisj : base + 45 ≤ s0.self.target_ ∨ s0.self.target_ + 5 ≤ base) :
    5 ≤ n ∧
    readBytes s1.w.mem s0.self.target_ 5 =
      0xE9 :: leBytes 4
        ((((s0.self.detour_ : Int) - ((s0.self.target_ : Int) + 5)) % 2 ^ 32).toNat) ∧
    (∀ x, s0.self.target_ + 5 ≤ x → (x < base ∨ base + n + 5 ≤ x) →
      s1.w.mem x = s0.w.mem x) ∧
    readBytes s1.w.mem base n = readBytes s0.w.mem s0.self.target_ n ∧
    readBytes s1.w.mem (base + n) 5 =
      0xE9 :: leBytes 4
        (((((s0.self.target_ + n : Nat) : Int) - (((base + n : Nat) : Int) + 5)) %
          2 ^ 32).toNat) := by
  obtain ⟨fresh, c, s3, s4, s5, s8, s9, hsz, e3, m3, hloop, htail, e8, m8, hentry, e1, m1⟩ :=
    PatchDetour.Apply_ok hA hun
  have hj : GetJumpSize env.arch = 5 := by rw [harch]; rfl
  rw [hj] at hloop
  obtain ⟨_, _, _, g4, g5⟩ :=
    PatchDetour.ApplyLoop_grows fresh.base hsane 5 hloop (Nat.le_refl _)
      (by simp) (by rw [hj]; show 0 < 5; omega)
  rw [hj] at g4 g5
  obtain ⟨r1, _, r3, r4, r5⟩ :=
    PatchDetour.ApplyLoop_copy 5 hloop (by rw [hj]; exact hnb)
      (by rw [hj]; show 0 < 5; omega) (by rw [readBytes_length]; omega)
  rw [hj] at r1
  simp only [Nat.sub_zero, List.drop_zero] at r1 r3 r5
  rw [← hn] at r1
  rw [r1] at r3 r5 htail g4 g5
  rw [readBytes_take _ _ _ _ (by omega)] at r5
  -- the two jumps
  have ht : s5.self = s4.self ∧ s5.w.mem = writeBytes s4.w.mem c.tramp_cur
      (asmRel32 0xE9 c.tramp_cur (s0.self.target_ + n)) := by
    rcases WriteBranch_ok htail with ⟨_, h1, h2⟩ | ⟨ha, _⟩
    · exact ⟨h1, h2⟩
    · rw [harch] at ha
      cases ha
  have he : s9.self = s8.self ∧ s9.w.mem = writeBytes s8.w.mem s0.self.target_
      (asmRel32 0xE9 s0.self.target_ s0.self.detour_) := by
    rcases WriteBranch_ok hentry with ⟨_, h1, h2⟩ | ⟨ha, _⟩
    · exact ⟨h1, h2⟩
    · rw [harch] at ha
      cases ha
  have hfresh : fresh = ⟨base, 45⟩ := by
    have h1 : s1.self.trampoline_ = some fresh := by rw [e1, he.1, e8, ht.1, r4, e3]
    rw [h1] at hbase
    exact Option.some.inj hbase
  have hb : fresh.base = base := by rw [hfresh]
  rw [hb] at r3 r5
  have hmem : s1.w.mem = writeBytes (writeBytes (writeBytes s0.w.mem base
      (readBytes s0.w.mem s0.self.target_ n)) (base + n)
      (asmRel32 0xE9 (base + n) (s0.self.target_ + n))) s0.self.target_
      (asmRel32 0xE9 s0.self.target_ s0.self.detour_) := by
    rw [m1, he.2, m8, ht.2, r5, r3, m3]
  rw [hmem]
  refine ⟨g4, ?_, ?_, ?_, ?_⟩
  · rw [readBytes_writeBytes_len _ _ _ _ (asmRel32_length _ _ _)]
    rfl
  · intro x hx1 hx2
    rw [writeBytes_outside _ _ _ _ (by rw [asmRel32_length]; omega),
      writeBytes_outside _ _ _ _ (by rw [asmRel32_length]; omega),
      writeBytes_outside _ _ _ _ (by rw [readBytes_length]; omega)]
  · have h1 : readBytes (writeBytes (writeBytes (writeBytes s0.w.mem base
        (readBytes s0.w.mem s0.self.target_ n)) (base + n)
        (asmRel32 0xE9 (base + n) (s0.self.target_ + n))) s0.self.target_
        (asmRel32 0xE9 s0.self.target_ s0.self.detour_)) base n =
        readBytes (writeBytes s0.w.mem base (readBytes s0.w.mem s0.self.target_ n)) base n := by
      apply readBytes_congr
      intro x hx1 hx2
      rw [writeBytes_outside _ _ _ _ (by rw [asmRel32_length]; omega),
        writeBytes_outside _ _ _ _ (by rw [asmRel32_length]; omega)]
    rw [h1]
    exact readBytes_writeBytes_len _ _ _ _ (readBytes_length _ _ _)
  · have h1 : readBytes (writeBytes (writeBytes (writeBytes s0.w.mem base
        (readBytes s0.w.mem s0.self.target_ n)) (base + n)
        (asmRel32 0xE9 (base + n) (s0.self.target_ + n))) s0.self.target_
        (asmRel32 0xE9 s0.self.target_ s0.self.detour_)) (base + n) 5 =
        readBytes (writeBytes (writeBytes s0.w.mem base
          (readBytes s0.w.mem s0.self.target_ n)) (base + n)
          (asmRel32 0xE9 (base + n) (s0.self.target_ + n))) (base + n) 5 := by
      apply readBytes_congr
      intro x hx1 hx2
      rw [writeBytes_outside _ _ _ _ (by rw [asmRel32_length]; omega)]
    rw [h1, readBytes_writeBytes_len _ _ _ _ (asmRel32_length _ _ _)]
    rfl

/-- Scenario S2: the prologue `55 8B EC 83 EC 10` at `0x401000` gives `n = 6`;
after `Apply` with the detour at `0x601000` and the trampoline at `0x500000`
the target starts with `E9` and `0x601000 − 0x401005`, and the trampoline holds
the six prologue bytes followed by `E9` and `0x401006 − 0x50000B`. -/
theorem PatchDetour_layout_x86_witness :
    shortestRun sampleDecode
      (readBytes (sampleDetour [0x55, 0x8B, 0xEC, 0x83, 0xEC, 0x10]).w.mem 0x401000 45) 5 5 0
      = 6 ∧
    readBytes (PatchDetour.Apply (sampleEnv .x86)
      (sampleDetour [0x55, 0x8B, 0xEC, 0x83, 0xEC, 0x10])).2.w.mem 0x401000 5 =
      [0xE9, 0xFB, 0xFF, 0x1F, 0x00] ∧
    readBytes (PatchDetour.Apply (sampleEnv .x86)
      (sampleDetour [0x55, 0x8B, 0xEC, 0x83, 0xEC, 0x10])).2.w.mem 0x500000 6 =
      [0x55, 0x8B, 0xEC, 0x83, 0xEC, 0x10] ∧
    readBytes (PatchDetour.Apply (sampleEnv .x86)
      (sampleDetour [0x55, 0x8B, 0xEC, 0x83, 0xEC, 0x10])).2.w.mem (0x500000 + 6) 5 =
      [0xE9, 0xFB, 0x0F, 0xF0, 0xFF] :=
  have h := PatchDetour_layout_x86 (sampleEnv .x86)
    (sampleDetour [0x55, 0x8B, 0xEC, 0x83, 0xEC, 0x10])
    (PatchDetour.Apply (sampleEnv .x86) (sampleDetour [0x55, 0x8B, 0xEC, 0x83, 0xEC, 0x10])).2
    0x500000 6 rfl (sampleDecode_sane .x86) rfl (by decide!) (by decide!)
    (Exec.run_eq_ok (by decide!)) (by decide!) (Or.inr (by decide))
  ⟨by decide!, h.2.1.trans (by decide!), h.2.2.2.1.trans (by decide!),
    h.2.2.2.2.trans (by decide!)⟩

/-! ## The bound on the passes of the loop of Apply -/

/-- More passes than `GetJumpSize()` minus the bytes consumed change nothing:
every pass that returns consumes at least one byte, so the loop of `Apply`
has come to its end before the bound is reached. -/
theorem PatchDetour.ApplyLoop_passes (env : Env) (buffer : List Nat) (fuel extra : Nat)
    (c : Cursor) (s : Ctx PatchDetour)
    (hf : GetJumpSize env.arch - c.instr_size ≤ fuel)
    (hlt : c.instr_size < GetJumpSize env.arch) :
    PatchDetour.ApplyLoop env buffer (fuel + extra) c s =
      PatchDetour.ApplyLoop env buffer fuel c s := by
  induction fuel generalizing c s with
  | zero => omega
  | succ n ih =>
      have e : n + 1 + extra = (n + extra) + 1 := by omega
      rw [e]
      unfold PatchDetour.ApplyLoop
      cases hx : PatchDetour.ApplyInsn env buffer c s with
      | mk r s2 =>
          cases r with
          | error err => rw [Exec.seq_error hx, Exec.seq_error hx]
          | ok c2 =>
              rw [Exec.seq_ok hx, Exec.seq_ok hx]
              obtain ⟨hlen, hsz, _, _⟩ := PatchDetour.ApplyInsn_ok hx
              by_cases hc : c2.instr_size < GetJumpSize env.arch
              · rw [if_pos hc, if_pos hc]
                exact ih c2 s2 (by omega) hc
              · rw [if_neg hc, if_neg hc]

/-- The loop of `Apply` as it is started, with `GetJumpSize()` passes, never
stops for want of passes: with any larger bound it gives the same result. -/
theorem PatchDetour.ApplyLoop_total (env : Env) (buffer : List Nat) (extra tramp_cur : Nat)
    (s : Ctx PatchDetour) :
    PatchDetour.ApplyLoop env buffer (GetJumpSize env.arch + extra)
        { tramp_cur := tramp_cur, instr_size := 0 } s =
      PatchDetour.ApplyLoop env buffer (GetJumpSize env.arch)
        { tramp_cur := tramp_cur, instr_size := 0 } s :=
  PatchDetour.ApplyLoop_passes env buffer _ extra _ s (by simp)
    (by have := GetJumpSize_le env.arch; show 0 < GetJumpSize env.arch; omega)

/-! ## C11: the near-target search -/

theorem nearOrder_succ (a b e : Int) (p : Nat) (i : Int) (n : Nat) :
    nearOrder a b e p i (n + 1) = nearPair a b e i ++ nearOrder a b e p (i + (p : Int)) n := by
  unfold nearOrder
  rw [List.range_succ_eq_map, List.flatMap_cons, List.flatMap_map]
  congr 1
  · simp
  · apply congrArg
    funext k
    congr 1
    push_cast
    ring

theorem nearPair_nil (a b e i : Int) (h : ¬ (a + i < e ∨ a - i > b)) :
    nearPair a b e i = [] := by
  unfold nearPair
  rw [not_or] at h
  rw [if_neg h.1, if_neg h.2]
  rfl

/-- Once the loop condition fails it fails for every later step, so no base is
left. -/
theorem nearOrder_nil (a b e : Int) (p : Nat) (i : Int) (n : Nat)
    (h : ¬ (a + i < e ∨ a - i > b)) : nearOrder a b e p i n = [] := by
  unfold nearOrder
  rw [List.flatMap_eq_nil_iff]
  intro k _
  apply nearPair_nil
  have hk : (0 : Int) ≤ (k : Int) * (p : Int) := by positivity
  rw [not_or] at h ⊢
  constructor <;> omega

/-- The `for` loop of `AllocTrampolineNear`, given passes enough to leave the
window, is the first-success run over the bases in the order of the
specification. -/
theorem AllocTrampolineNear.search_eq {P : Type} (env : Env) (a b e : Int) (p : Nat)
    (fuel : Nat) (i : Int)
    (hstop : ¬ (a + (i + (fuel : Int) * (p : Int)) < e ∨ a - (i + (fuel : Int) * (p : Int)) > b)) :
    (AllocTrampolineNear.search env a b e p fuel i : Exec P (Option Allocator)) =
      firstGranted env p (nearOrder a b e p i fuel) := by
  induction fuel generalizing i with
  | zero =>
      have h0 : ¬ (a + i < e ∨ a - i > b) := by
        simpa using hstop
      unfold AllocTrampolineNear.search
      rw [if_neg h0]
      rfl
  | succ n ih =>
      have hnext : ¬ (a + (i + (p : Int) + (n : Int) * (p : Int)) < e ∨
          a - (i + (p : Int) + (n : Int) * (p : Int)) > b) := by
        have e1 : i + (p : Int) + (n : Int) * (p : Int) =
            i + ((n + 1 : Nat) : Int) * (p : Int) := by
          push_cast
          ring
        rw [e1]
        exact hstop
      by_cases hc : a + i < e ∨ a - i > b
      · unfold AllocTrampolineNear.search
        rw [if_pos hc, nearOrder_succ, ih (i + (p : Int)) hnext]
        unfold nearPair
        by_cases h1 : a + i < e <;> by_cases h2 : a - i > b <;>
          simp only [h1, h2, if_true, if_false, List.cons_append, List.nil_append,
            firstGranted] <;> rfl
      · unfold AllocTrampolineNear.search
        rw [if_neg hc, nearOrder_nil a b e p i (n + 1) hc]
        rfl

/-- The passes given to the loop by `AllocTrampolineNear` leave the window on
both sides when the page size is not zero. -/
theorem nearPasses_enough (env : Env) (a : Nat) (hp : 0 < env.dwPageSize) :
    ¬ ((a : Int) + (0 + (((max (nearEnd env a - a) (a - nearBeg env a)).toNat /
          env.dwPageSize + 1 : Nat) : Int) * (env.dwPageSize : Int)) < nearEnd env a ∨
       (a : Int) - (0 + (((max (nearEnd env a - a) (a - nearBeg env a)).toNat /
          env.dwPageSize + 1 : Nat) : Int) * (env.dwPageSize : Int)) > nearBeg env a) := by
  generalize hD : max (nearEnd env a - (a : Int)) ((a : Int) - nearBeg env a) = D
  have h1 : D.toNat < D.toNat / env.dwPageSize * env.dwPageSize + env.dwPageSize :=
    Nat.lt_div_mul_add hp
  have h2 : D ≤ (D.toNat : Int) := Int.self_le_toNat D
  have h3 : ((D.toNat / env.dwPageSize + 1 : Nat) : Int) * (env.dwPageSize : Int) =
      ((D.toNat / env.dwPageSize * env.dwPageSize + env.dwPageSize : Nat) : Int) := by
    push_cast
    ring
  have h4 : nearEnd env a - (a : Int) ≤ D := by rw [← hD]; exact le_max_left _ _
  have h5 : (a : Int) - nearBeg env a ≤ D := by rw [← hD]; exact le_max_right _ _
  rw [h3, not_or]
  constructor <;> omega

/-- Member `AllocTrampolineNear` is the first-success run over the candidates
in the order of the specification, for every page size that is not zero. -/
theorem AllocTrampolineNear_eq_spec {P : Type} (env : Env) (a : Nat)
    (hp : 0 < env.dwPageSize) :
    (AllocTrampolineNear env a : Exec P Allocator) = nearTargetSpec env a := by
  have hs := @AllocTrampolineNear.search_eq P env (a : Int) (nearBeg env a)
    (nearEnd env a) env.dwPageSize _ 0 (nearPasses_enough env a hp)
  unfold AllocTrampolineNear nearTargetSpec nearCandidates
  unfold nearBeg nearEnd at hs ⊢
  simp only [hs]

theorem tryCreateAt_run {P : Type} (env : Env) (base : Int) (size : Nat) (s : Ctx P) :
    (∃ got, env.allocAt s.w base.toNat size = some got ∧
      tryCreateAt env base size s =
        (.ok (some ⟨got, size⟩), { s with w := s.w.log (requestGranted size base got) })) ∨
    (env.allocAt s.w base.toNat size = none ∧
      tryCreateAt env base size s =
        (.ok none, { s with w := s.w.log (requestRefused size base) })) := by
  unfold tryCreateAt Allocator.createAt
  cases h : env.allocAt s.w base.toNat size with
  | some got => exact Or.inl ⟨got, rfl, rfl⟩
  | none => exact Or.inr ⟨rfl, rfl⟩

/-- A first-success run requests the bases of the list in order: either one of
them is granted after all before it were refused, and that allocation is
returned, or all are refused and none is returned.  Nothing but the trace of
calls changes. -/
theorem firstGranted_run {P : Type} (env : Env) (size : Nat) (l : List Int) (s : Ctx P) :
    (∃ (pre : List Int) (base : Int) (post : List Int) (got : Nat),
      l = pre ++ base :: post ∧
      firstGranted env size l s =
        (.ok (some ⟨got, size⟩),
          { s with w := { s.w with trace := s.w.trace ++ pre.map (requestRefused size) ++
            [requestGranted size base got] } })) ∨
    firstGranted env size l s =
      (.ok none, { s with w := { s.w with trace := s.w.trace ++ l.map (requestRefused size) } }) := by
  induction l generalizing s with
  | nil =>
      right
      simp [firstGranted, Exec.pure_run]
  | cons b rest ih =>
      unfold firstGranted
      rcases tryCreateAt_run env b size s with ⟨got, _, h⟩ | ⟨_, h⟩
      · left
        refine ⟨[], b, rest, got, rfl, ?_⟩
        rw [Exec.seq_ok h]
        simp [Exec.pure_run, World.log]
      · rw [Exec.seq_ok h]
        rcases ih { s with w := s.w.log (requestRefused size b) } with
          ⟨pre, base, post, got, hl, hr⟩ | hr
        · left
          refine ⟨b :: pre, base, post, got, by rw [hl]; rfl, ?_⟩
          simp only [hr]
          simp [World.log]
        · right
          simp only [hr]
          simp [World.log]

/-- The bases of the order of the specification lie on the side of `a` they
were taken from, strictly inside the window. -/
theorem mem_nearOrder (a b e : Int) (p : Nat) (i : Int) (n : Nat) (base : Int)
    (hi : 0 ≤ i) (h : base ∈ nearOrder a b e p i n) :
    (a ≤ base ∧ base < e) ∨ (b < base ∧ base ≤ a) := by
  unfold nearOrder at h
  rw [List.mem_flatMap] at h
  obtain ⟨k, _, hk⟩ := h
  have hk0 : (0 : Int) ≤ (k : Int) * (p : Int) := by positivity
  unfold nearPair at hk
  rw [List.mem_append] at hk
  rcases hk with hk | hk
  · split at hk
    · simp only [List.mem_singleton] at hk
      left
      constructor <;> omega
    · simp at hk
  · split at hk
    · simp only [List.mem_singleton] at hk
      right
      constructor <;> omega
    · simp at hk

/-- Counterexample to C11 as stated: it fails below the minimum application
address.  In the sample process, whose minimum application address is `0x10000`, the search
around `a = 0x1000` requests the base `0x1000` first, is granted it and
returns it: the lower bound of the window only limits the bases below `a`. -/
theorem AllocTrampolineNear_below_minimum :
    (AllocTrampolineNear (sampleEnv .amd64) 0x1000 (sampleDetour [0x55])).1 =
      .ok ⟨0x1000, 0x1000⟩ ∧
    (AllocTrampolineNear (sampleEnv .amd64) 0x1000 (sampleDetour [0x55])).2.w.trace =
      [.alloc (some 0x1000) 0x1000 (some 0x1000)] ∧
    ¬ ((sampleEnv .amd64).lpMinimumApplicationAddress ≤ 0x1000) := by
  refine ⟨?_, ?_, ?_⟩ <;> decide!

/-- C11 (amended). On the 64-bit build, for every page size `p > 0`, every
minimum and maximum application address and every address `a` between them,
`AllocTrampolineNear(a)` is the first-success run over the candidates in the
order `a + 0`, `a - 0`, `a + p`, `a - p`, `a + 2p`, `a - 2p`, ..., each kept
only when strictly inside the window: either one request is granted after all
requests before it were refused and that allocation is returned, or every
candidate is requested and refused and the error is raised.  These are all
the calls issued, and every candidate `B` has `|B - a| < 2^31 - 256` and lies
between the minimum and the maximum application address. -/
theorem AllocTrampolineNear_first_granted (env : Env) (a : Nat) (s : Ctx PatchDetour)
    (hp : 0 < env.dwPageSize)
    (hmin : env.lpMinimumApplicationAddress ≤ a)
    (hmax : a ≤ env.lpMaximumApplicationAddress) :
    AllocTrampolineNear env a s = nearTargetSpec env a s ∧
    ((∃ (pre : List Int) (base : Int) (post : List Int) (got : Nat),
        nearCandidates env a = pre ++ base :: post ∧
        AllocTrampolineNear env a s =
          (.ok ⟨got, env.dwPageSize⟩,
            { s with w := { s.w with trace := (s.w.trace ++
              pre.map (requestRefused env.dwPageSize) ++
              [requestGranted env.dwPageSize base got]) } })) ∨
      AllocTrampolineNear env a s =
        (.error .NoTrampolineBlock,
          { s with w := { s.w with trace := (s.w.trace ++
            (nearCandidates env a).map (requestRefused env.dwPageSize)) } })) ∧
    (∀ base ∈ nearCandidates env a,
      |base - (a : Int)| < 0x7FFFFF00 ∧ 0 ≤ base ∧
      (env.lpMinimumApplicationAddress : Int) ≤ base ∧
      base ≤ (env.lpMaximumApplicationAddress : Int)) := by
  refine ⟨by rw [AllocTrampolineNear_eq_spec env a hp], ?_, ?_⟩
  · rw [AllocTrampolineNear_eq_spec env a hp]
    unfold nearTargetSpec
    rcases firstGranted_run env env.dwPageSize (nearCandidates env a) s with
      ⟨pre, base, post, got, hl, hr⟩ | hr
    · left
      refine ⟨pre, base, post, got, hl, ?_⟩
      rw [Exec.seq_ok hr]
      rfl
    · right
      rw [Exec.seq_ok hr]
      rfl
  · intro base hb
    unfold nearCandidates at hb
    have h1 := mem_nearOrder _ _ _ _ _ _ _ (le_refl 0) hb
    have e1 : nearEnd env a ≤ (a : Int) + 0x7FFFFF00 := min_le_left _ _
    have e2 : nearEnd env a ≤ (env.lpMaximumApplicationAddress : Int) := min_le_right _ _
    have b1 : (a : Int) - 0x7FFFFF00 ≤ nearBeg env a := le_max_left _ _
    have b2 : (env.lpMinimumApplicationAddress : Int) ≤ nearBeg env a := le_max_right _ _
    have hmin1 : (env.lpMinimumApplicationAddress : Int) ≤ (a : Int) := by exact_mod_cast hmin
    have hmax1 : (a : Int) ≤ (env.lpMaximumApplicationAddress : Int) := by exact_mod_cast hmax
    have hmin0 : (0 : Int) ≤ (env.lpMinimumApplicationAddress : Int) := Int.natCast_nonneg _
    rw [abs_lt]
    rcases h1 with ⟨h2, h3⟩ | ⟨h2, h3⟩
    · refine ⟨⟨?_, ?_⟩, ?_, ?_, ?_⟩ <;> omega
    · refine ⟨⟨?_, ?_⟩, ?_, ?_, ?_⟩ <;> omega

/-- The search around `0x401000` in the sample process with application
addresses `[0x400000, 0x410000]`: the page of the code is taken, so the
requests at `0x401000` (twice) are refused and the page at `0x402000` is
returned; every candidate lies within the application addresses. -/
theorem AllocTrampolineNear_first_granted_witness :
    (AllocTrampolineNear sampleEnvNarrow 0x401000 (sampleDetour [0x55])).1 =
      .ok ⟨0x402000, 0x1000⟩ ∧
    (∀ base ∈ nearCandidates sampleEnvNarrow 0x401000,
      |base - ((0x401000 : Nat) : Int)| < 0x7FFFFF00 ∧ 0 ≤ base ∧
      ((0x400000 : Nat) : Int) ≤ base ∧ base ≤ ((0x410000 : Nat) : Int)) :=
  have h := AllocTrampolineNear_first_granted sampleEnvNarrow 0x401000 (sampleDetour [0x55])
    (by decide) (by decide) (by decide)
  ⟨(congrArg Prod.fst h.1).trans (by decide!), h.2.2⟩

/-! ## C12: capacity of the primary trampoline -/

theorem Grows_shift {page base k lim : Nat} {s s1 : Ctx PatchDetour}
    (h : Grows page (base + k) lim s s1) : Grows page base (k + lim) s s1 := by
  obtain ⟨l, e, p, m⟩ := h
  refine ⟨l, e, p, ?_⟩
  intro x hx
  rcases m x hx with h3 | h3
  · exact Or.inl ⟨by omega, by omega⟩
  · exact Or.inr h3

/-- A branch written at `address` changes the `GetJumpSize()` bytes there and
the slot of the auxiliary trampoline it obtained, nothing else. -/
theorem WriteBranch_grows_exact {env : Env} {call : Bool} {address target : Nat}
    {s s1 : Ctx PatchDetour} (h : WriteBranch env call address target s = (.ok (), s1)) :
    Grows env.dwPageSize address (GetJumpSize env.arch) s s1 := by
  rcases WriteBranch_ok h with ⟨ha, h1, h2⟩ | ⟨ha, a, hsz, h1, h2⟩
  · refine ⟨[], by simp [h1], by simp, ?_⟩
    intro x hx
    left
    rw [h2] at hx
    by_contra hc
    apply hx
    apply writeBytes_outside
    rw [asmRel32_length]
    rw [ha] at hc
    simp only [GetJumpSize] at hc
    omega
  · refine ⟨[a], h1, by simpa using hsz, ?_⟩
    intro x hx
    rw [h2] at hx
    by_cases hin : address ≤ x ∧ x < address + GetJumpSize env.arch
    · exact Or.inl hin
    · right
      refine ⟨a, by simp, ?_⟩
      by_contra hc
      apply hx
      rw [ha] at hin
      simp only [GetJumpSize] at hin
      rw [writeBytes_outside _ _ _ _ (by rw [asmRipIndirect_length]; omega)]
      apply writeBytes_outside
      rw [leBytes_length]
      omega

/-- The loop of `Apply` moves the cursor by the bytes the specification counts,
and changes memory only in those bytes of the trampoline and in the slots of
the auxiliary trampolines it obtained. -/
theorem PatchDetour.ApplyLoop_cursor {env : Env} {buffer : List Nat} (fuel : Nat)
    {c c1 : Cursor} {s s1 : Ctx PatchDetour}
    (h : PatchDetour.ApplyLoop env buffer fuel c s = (.ok c1, s1)) :
    c1.tramp_cur = c.tramp_cur +
      trampolineBytes env.arch env.ud_disassemble buffer fuel c.instr_size ∧
    Grows env.dwPageSize c.tramp_cur
      (trampolineBytes env.arch env.ud_disassemble buffer fuel c.instr_size) s s1 := by
  induction fuel generalizing c s with
  | zero =>
      unfold PatchDetour.ApplyLoop at h
      simp [raise] at h
  | succ n ih =>
      unfold PatchDetour.ApplyLoop at h
      obtain ⟨c2, s2, h1, h2⟩ := Exec.bind_eq_ok h
      obtain ⟨_, hsz, hbr, hcp⟩ := PatchDetour.ApplyInsn_ok h1
      unfold trampolineBytes
      generalize env.ud_disassemble (buffer.drop c.instr_size) = insn at hsz hbr hcp ⊢
      -- the pass itself
      have hpass : c2.tramp_cur = c.tramp_cur +
          (match insn.relBranch with
            | some _ => if insn.mnemonic = .UD_Ijmp then GetJumpSize env.arch
                else GetCallSize env.arch
            | none => insn.len) ∧
          Grows env.dwPageSize c.tramp_cur
            (match insn.relBranch with
              | some _ => if insn.mnemonic = .UD_Ijmp then GetJumpSize env.arch
                  else GetCallSize env.arch
              | none => insn.len) s s2 := by
        cases hrb : insn.relBranch with
        | some op =>
            obtain ⟨hw, hcur⟩ := hbr op hrb
            refine ⟨hcur, ?_⟩
            have hg := WriteBranch_grows_exact hw
            show Grows env.dwPageSize c.tramp_cur
              (if insn.mnemonic = .UD_Ijmp then GetJumpSize env.arch
                else GetCallSize env.arch) s s2
            simp only [GetCallSize_eq, ite_self]
            exact hg
        | none =>
            obtain ⟨hw, hcur⟩ := hcp hrb
            refine ⟨hcur, ?_⟩
            have hl : ((buffer.drop c.instr_size).take insn.len).length ≤ insn.len := by
              rw [List.length_take]
              exact Nat.min_le_left _ _
            show Grows env.dwPageSize c.tramp_cur insn.len s s2
            exact WriteVector_grows hw (Nat.le_refl _) (by omega)
      obtain ⟨hcur2, hg2⟩ := hpass
      split at h2
      · next hcont =>
          rw [hsz] at hcont
          rw [if_pos hcont, ← hsz]
          obtain ⟨r1, r2⟩ := ih h2
          refine ⟨by rw [r1, hcur2]; omega, ?_⟩
          rw [hcur2] at r2
          exact Grows_trans (Grows_mono hg2 (by omega)) (Grows_shift r2)
      · next hstop =>
          simp only [Exec.pure_run, Prod.mk.injEq, Except.ok.injEq] at h2
          obtain ⟨e1, e2⟩ := h2
          subst e1
          subst e2
          rw [hsz] at hstop
          rw [if_neg hstop]
          exact ⟨hcur2, hg2⟩

/-- C12. For a decoder whose instructions are at most 15 bytes long (a `jmp`
or `call` with a 32-bit relative operand being at least five bytes long, as
its encoding requires), when the decode loop of `Apply` returns, every
instruction decoded having a length of at least one: the consumed length `n`
satisfies `GetJumpSize() ≤ n ≤ GetJumpSize() - 1 + 15`, so decoding stays
inside the 45 bytes read from the target; the cursor has moved by the bytes
written for the instructions (their length when copied, `GetJumpSize()` or
`GetCallSize()` when synthesised), which together with the `GetJumpSize()`
bytes of the tail jump are at most 45; memory has changed only in those
bytes of the trampoline and in the slots of the auxiliary trampolines gained;
and the bound on the passes is not what stopped the loop.  This holds on both
builds. -/
theorem PatchDetour_capacity (env : Env) (buffer : List Nat) (base : Nat) (c1 : Cursor)
    (s s1 : Ctx PatchDetour) (hsane : DecoderSane env)
    (h : PatchDetour.ApplyLoop env buffer (GetJumpSize env.arch)
      { tramp_cur := base, instr_size := 0 } s = (.ok c1, s1)) :
    GetJumpSize env.arch ≤ c1.instr_size ∧
    c1.instr_size ≤ GetJumpSize env.arch - 1 + 15 ∧
    c1.instr_size ≤ 15 * 3 ∧
    c1.tramp_cur = base +
      trampolineBytes env.arch env.ud_disassemble buffer (GetJumpSize env.arch) 0 ∧
    trampolineBytes env.arch env.ud_disassemble buffer (GetJumpSize env.arch) 0 +
      GetJumpSize env.arch ≤ 15 * 3 ∧
    (∃ l : List Allocator, s1.self.trampolines_ = s.self.trampolines_ ++ l ∧
      ∀ x, s1.w.mem x ≠ s.w.mem x →
        (base ≤ x ∧ x < base +
          trampolineBytes env.arch env.ud_disassemble buffer (GetJumpSize env.arch) 0) ∨
        ∃ r ∈ l, r.base ≤ x ∧ x < r.base + 8) ∧
    (∀ extra, PatchDetour.ApplyLoop env buffer (GetJumpSize env.arch + extra)
      { tramp_cur := base, instr_size := 0 } s = (.ok c1, s1)) := by
  have hj := GetJumpSize_le env.arch
  obtain ⟨_, b1, b2, b3, b4⟩ :=
    PatchDetour.ApplyLoop_grows base hsane _ h (Nat.le_refl _) (by simp)
      (by show 0 < GetJumpSize env.arch; omega)
  obtain ⟨r1, l, e, _, m⟩ := PatchDetour.ApplyLoop_cursor _ h
  simp only at r1 m b1 b2
  refine ⟨b3, by omega, by omega, r1, by omega, ⟨l, by rw [e], m⟩, ?_⟩
  intro extra
  rw [PatchDetour.ApplyLoop_total]
  exact h

/-- On the 64-bit build, over `call +0x10; nop` with the trampoline at
`0x500000`: six bytes are consumed, seven are written for the two
instructions (six for the call, one for the `nop`), and with the six of the
tail jump that is 13, below 45. -/
theorem PatchDetour_capacity_witness :
    (6 : Nat) ≤ 6 ∧
    0x500007 = 0x500000 + trampolineBytes .amd64 sampleDecode
      (readBytes (sampleWorld [0xE8, 0x10, 0x00, 0x00, 0x00, 0x90]).mem 0x401000 45) 6 0 ∧
    trampolineBytes .amd64 sampleDecode
      (readBytes (sampleWorld [0xE8, 0x10, 0x00, 0x00, 0x00, 0x90]).mem 0x401000 45) 6 0 + 6
      ≤ 15 * 3 :=
  have h := PatchDetour_capacity (sampleEnv .amd64)
    (readBytes (sampleWorld [0xE8, 0x10, 0x00, 0x00, 0x00, 0x90]).mem 0x401000 45)
    0x500000 ⟨0x500007, 6⟩
    (Allocator.create (sampleEnv .amd64) 45
      (sampleDetour [0xE8, 0x10, 0x00, 0x00, 0x00, 0x90])).2
    (PatchDetour.ApplyLoop (sampleEnv .amd64)
      (readBytes (sampleWorld [0xE8, 0x10, 0x00, 0x00, 0x00, 0x90]).mem 0x401000 45) 6
      ⟨0x500000, 0⟩
      (Allocator.create (sampleEnv .amd64) 45
        (sampleDetour [0xE8, 0x10, 0x00, 0x00, 0x00, 0x90])).2).2
    (sampleDecode_sane .amd64) (Exec.run_eq_val (by decide!))
  ⟨h.1, h.2.2.2.1, h.2.2.2.2.1⟩

end hadesmem
